import Mathlib

/-!
Verification model of the jschannel RPC engine (src/jschannel.js).

The development shallow-embeds the parts of the source the claims are about:

* a model of dynamically-typed JS values (`JsVal`) with the `typeof`-driven
  distinctions the source inspects, plus models of `toString` and
  `JSON.stringify` (string escaping inside the produced text is elided, and
  quote characters appearing in the source's error-message literals are
  elided; neither affects any claim);
* the error-normalization logic of the catch block in `onMessage`
  (`normalizeRaised`, source lines 382-403);
* the global registry `s_boundChans` / `s_addBoundChan` (source lines 29-63),
  with the nested origin -> scope -> array-of-entries structure flattened to a
  list of (origin, scope, win) entries, which preserves exactly the
  existence checks (`hasWin`) the source performs;
* the per-channel engine state (`ChanState`): readiness flag, bound-method
  table `regTbl`, outbound table `outTbl`, inbound table `inTbl`, the pending
  queue, and this channel's slice of the global `s_transIds` map.  Effects
  (transport posts, queueing, timer cancellation, user-handler invocations,
  table removals) are recorded as an ordered event trace (`Ev`), so ordering
  claims (remove-before-invoke, FIFO flush) are statements about traces.
  User-supplied handlers are abstract ids; whether an invoked handler throws
  is a parameter (`raises`), and the source's try/catch/finally structure is
  translated directly;
* the callback marshaller of `call` (source lines 597-643): since cyclic
  `params` values are reachable in JS but not representable as an inductive
  tree, params live in an explicit heap (`HeapT`) of object nodes addressed
  by refs; `cloneV` models `JSON.parse(JSON.stringify(params))` (path-based
  cycle detection, function values dropped) and `pruneF` models
  `pruneFunctions` (path-based `seen` list with push/pop, slash-joined
  paths).  Both carry a fuel argument so they are total; fuel exhaustion is a
  model artifact distinct from the two error exits the source has.

The environment flag `isReactNativeWebView` is modelled as `false`
(standard-browser path): every `postMessage(msg, isReactNativeWebView)` in
the source becomes `postMessage msg false`.
-/

namespace Jschannel

/-! ### JS values -/

inductive JsVal where
  | vnull
  | vundefined
  | vbool (b : Bool)
  | vnum (n : Int)
  | vstr (s : String)
  | vfun (fid : Nat)
  | varr (elems : List JsVal)
  | vobj (fields : List (String × JsVal))

/-- Model of `e.toString()` for the values on which the source observes it.
`normalizeRaised` only keeps this value for numbers, booleans and functions
(all other branches overwrite `message`); the array case (JS comma-join of
elements) is elided accordingly, and `null`/`undefined` (whose `toString`
throws) are screened off before `jsToString` is consulted. -/
def jsToString : JsVal → String
  | .vnull => "null"
  | .vundefined => "undefined"
  | .vbool b => if b then "true" else "false"
  | .vnum n => toString n
  | .vstr s => s
  | .vfun _ => "function () \x7b \x7d"
  | .varr _ => ""
  | .vobj _ => "[object Object]"

/-- Model of `JSON.stringify`: `none` when the result is `undefined`
(stringifying `undefined` or a bare function).  Function- and
undefined-valued object fields are dropped; such array elements become
`null`, as in JS. -/
def jsStringify : JsVal → Option String
  | .vnull => some "null"
  | .vundefined => none
  | .vbool b => some (if b then "true" else "false")
  | .vnum n => some (toString n)
  | .vstr s => some ("\"" ++ s ++ "\"")
  | .vfun _ => none
  | .varr l =>
    some ("[" ++ String.intercalate ","
      (l.attach.map fun v => (jsStringify v.1).getD "null") ++ "]")
  | .vobj fs =>
    some ("\x7b" ++ String.intercalate ","
      (fs.attach.filterMap fun kv =>
        (jsStringify kv.1.2).map fun s => "\"" ++ kv.1.1 ++ "\":" ++ s) ++ "\x7d")
decreasing_by
  · have h1 := List.sizeOf_lt_of_mem v.2
    simp only [JsVal.varr.sizeOf_spec]
    omega
  · have h1 := List.sizeOf_lt_of_mem kv.2
    have h2 : sizeOf kv.1.2 < sizeOf kv.1 := by
      rcases kv with ⟨⟨a, b⟩, hm⟩
      simp
    simp only [JsVal.vobj.sizeOf_spec]
    omega

/-- Field lookup on an object's field list (JS property access). -/
def getField (fs : List (String × JsVal)) (k : String) : Option JsVal :=
  (fs.find? fun kv => kv.1 == k).map (·.2)

/-! ### Error normalization (onMessage catch block, lines 382-403)

Translation of

```
var error = "runtime_error";
var message = e.toString();
if (typeof e === 'string') { message = e; }
else if (typeof e === 'object' && e !== null) {
  if (s_isArray(e) && e.length == 2 && typeof e[0] === 'string') {
    error = e[0]; message = e[1];
  } else if (typeof e.error === 'string') {
    error = e.error;
    message = (typeof e.message === 'string') ? e.message
                                              : JSON.stringify(e.message);
  } else {
    try { message = JSON.stringify(e); } catch (e2) { /* use toString */ }
  }
}
```

`var message = e.toString()` is evaluated before any of the checks, so a
handler that raises `null` or `undefined` makes the catch block itself throw
a TypeError, which escapes `onMessage`; the `Except.error` branch models
that escape.  (`JSON.stringify` of a plain object never throws in the model,
so the source's inner `catch (e2)` fallback is unreachable here.) -/

def normalizeRaised (e : JsVal) : Except JsVal (String × JsVal) :=
  match e with
  | .vnull => .error (.vstr "TypeError: e.toString is not a function (null)")
  | .vundefined =>
    .error (.vstr "TypeError: e.toString is not a function (undefined)")
  | .vstr s => .ok ("runtime_error", .vstr s)
  | .varr l =>
    match l with
    | [.vstr k, v] => .ok (k, v)
    | _ => .ok ("runtime_error", .vstr ((jsStringify (.varr l)).getD "undefined"))
  | .vobj fs =>
    match getField fs "error" with
    | some (.vstr k) =>
      let msg : JsVal :=
        match getField fs "message" with
        | some (.vstr s) => .vstr s
        | some mv =>
          (match jsStringify mv with
           | some s => .vstr s
           | none => .vundefined)
        | none => .vundefined
      .ok (k, msg)
    | _ => .ok ("runtime_error", .vstr ((jsStringify (.vobj fs)).getD "undefined"))
  | .vnum n => .ok ("runtime_error", .vstr (jsToString (.vnum n)))
  | .vbool b => .ok ("runtime_error", .vstr (jsToString (.vbool b)))
  | .vfun f => .ok ("runtime_error", .vstr (jsToString (.vfun f)))

/-! ### Global endpoint registry (s_boundChans, lines 29-63)

The source keeps `s_boundChans[origin][scope]` as an array of
`\x7b win, handler \x7d` records; `hasWin` checks membership of `win`.  We
flatten to a single list of entries (an entry per array element), which
preserves every existence check the source makes.  `win` is an abstract
identity (Nat). -/

structure BoundEntry where
  origin : String
  scope : String
  win : Nat
deriving DecidableEq, Repr

/-- The `exists` flag computed by `s_addBoundChan` (lines 36-56).  For
`origin === '*'` the source scans every origin key except `'*'` itself; for
a concrete origin it checks `'*'` first and then the concrete origin. -/
def hasOverlap (tbl : List BoundEntry) (win : Nat) (origin scope : String) :
    Bool :=
  if origin == "*" then
    tbl.any fun e => (!(e.origin == "*")) && e.scope == scope && e.win == win
  else
    tbl.any fun e =>
      (e.origin == "*" || e.origin == origin) && e.scope == scope && e.win == win

/-- Translation of `s_addBoundChan` (lines 29-63). -/
def s_addBoundChan (tbl : List BoundEntry) (win : Nat) (origin scope : String) :
    Except String (List BoundEntry) :=
  if hasOverlap tbl win origin scope then
    .error ("A channel is already bound to the same window/interface which overlaps with origin " ++ origin ++ " and has scope " ++ scope)
  else
    .ok (tbl ++ [⟨origin, scope, win⟩])

/-! ### Channel engine state

One channel instance (the state captured by the closures inside
`Channel.build`), plus this channel's slice of the process-wide `s_transIds`
map.  User handler functions (success/error handlers of `call`, marshalled
callback functions, bound methods) are abstract ids; the engine only stores
and invokes them. -/

/-- Wire messages; the five disjoint shapes of the data model.  `errorResp`
is a response whose `error` field is truthy. -/
inductive WireMsg where
  | request (id : Nat) (method : String) (params : JsVal) (callbacks : List String)
  | response (id : Nat) (result : JsVal)
  | errorResp (id : Nat) (error : String) (message : JsVal)
  | callbackInv (id : Nat) (callback : String) (params : JsVal)
  | notif (method : String) (params : JsVal)

/-- One outbound-transaction record (`outTbl[id]`, built by `call`, lines
647-653).  `error`/`success` are `none` when the stored value is not a
function (the source guards invocations with `typeof ... === 'function'`);
`timeoutId` is `null`/`none` when no timeout was requested. -/
structure OutRec where
  callbacks : List (String × Nat)
  error : Option Nat
  success : Option Nat
  timeoutId : Option Nat

/-- Per-channel engine state.  `transIds` is the set of ids this channel has
registered in the global `s_transIds` map (their handler is this channel's
`onMessage`).  `scope` and `userOnReady` are construction-time configuration
(`cfg.scope`, presence of `cfg.onReady`). -/
structure ChanState where
  scope : String
  ready : Bool
  regTbl : List (String × Nat)
  outTbl : List (Nat × OutRec)
  inTbl : List (Nat × List String)
  pendingQueue : List WireMsg
  transIds : List Nat
  userOnReady : Bool

/-- Observable effects, in execution order.  `posted` is a message handed to
the transport (`cfg.window.postMessage`), `queued` one pushed on
`pendingQueue`; `invoke*` are synchronous invocations of user-supplied
functions (by abstract id); `handlerRaised` records that such an invocation
threw (and was caught); `removeOut`/`removeGlobal` are the
`delete outTbl[id]` / `delete s_transIds[id]` bookkeeping steps;
`userReadyCb` is the `cfg.onReady(obj)` invocation (passing the channel
object itself). -/
inductive Ev where
  | posted (m : WireMsg)
  | queued (m : WireMsg)
  | cancelTimer (t : Nat)
  | invokeSuccess (h : Nat) (result : JsVal)
  | invokeError (h : Nat) (kind : String) (message : JsVal)
  | invokeCallback (f : Nat) (params : JsVal)
  | handlerRaised
  | removeOut (id : Nat)
  | removeGlobal (id : Nat)
  | userReadyCb

def lookupOut (st : ChanState) (id : Nat) : Option OutRec :=
  (st.outTbl.find? fun p => p.1 == id).map (·.2)

def lookupIn (st : ChanState) (id : Nat) : Option (List String) :=
  (st.inTbl.find? fun p => p.1 == id).map (·.2)

def lookupReg (st : ChanState) (m : String) : Option Nat :=
  (st.regTbl.find? fun p => p.1 == m).map (·.2)

/-- The two `delete` statements of the source's `finally` blocks:
`delete outTbl[id]; delete s_transIds[id]`. -/
def cleanupTrans (st : ChanState) (id : Nat) : ChanState :=
  { st with
    outTbl := st.outTbl.filter fun p => p.1 ≠ id
    transIds := st.transIds.filter fun j => j ≠ id }

/-- `scopeMethod` (lines 483-489). -/
def scopeMethod (scope m : String) : String :=
  if scope.length ≠ 0 then scope ++ "::" ++ m else m

/-- `postMessage` (lines 492-519), with `isReactNativeWebView = false`:
unforced messages are queued while the channel is not ready, otherwise the
serialized message is handed to the transport. -/
def postMessage (st : ChanState) (msg : WireMsg) (force : Bool) :
    ChanState × List Ev :=
  if !force && !st.ready then
    ({ st with pendingQueue := st.pendingQueue ++ [msg] }, [.queued msg])
  else
    (st, [.posted msg])

/-- The Response/Error branch of `onMessage` (`else if (m.id)`, lines
427-459).  `error` is `some (kind, message)` when `m.error` is truthy.
`raises h` tells whether user handler `h` throws when invoked; the source
wraps the invocation in `try/catch` (exception swallowed) with the two
deletes in `finally`. -/
def onMessageResponse (raises : Nat → Bool) (st : ChanState) (id : Nat)
    (error : Option (String × JsVal)) (result : JsVal) : ChanState × List Ev :=
  match lookupOut st id with
  | none => (st, [])
  | some tr =>
    let cancelEvs : List Ev :=
      match tr.timeoutId with
      | some t => [.cancelTimer t]
      | none => []
    let invokeEvs : List Ev :=
      match error with
      | some (k, msg) =>
        match tr.error with
        | some h => [.invokeError h k msg] ++ (if raises h then [.handlerRaised] else [])
        | none => []
      | none =>
        match tr.success with
        | some h => [.invokeSuccess h result] ++ (if raises h then [.handlerRaised] else [])
        | none => []
    (cleanupTrans st id, cancelEvs ++ invokeEvs ++ [.removeOut id, .removeGlobal id])

/-- Firing of the timer armed by `setTransactionTimeout` (lines 315-334): if
the outbound transaction is still present, invoke its error handler (when it
is a function) with the reserved `"timeout_error"` kind inside `try/catch`,
and delete the transaction from both tables in `finally`. -/
def setTransactionTimeoutFire (raises : Nat → Bool) (st : ChanState)
    (transId : Nat) (timeout : Nat) (method : String) : ChanState × List Ev :=
  match lookupOut st transId with
  | none => (st, [])
  | some tr =>
    let msg := "timeout (" ++ toString timeout ++ "ms) exceeded on method " ++ method
    let invokeEvs : List Ev :=
      match tr.error with
      | some h =>
        [.invokeError h "timeout_error" (.vstr msg)] ++
          (if raises h then [.handlerRaised] else [])
      | none => []
    (cleanupTrans st transId, invokeEvs ++ [.removeOut transId, .removeGlobal transId])

/-- The Callback-invocation branch of `onMessage` (`else if (m.id &&
m.callback)`, lines 409-426): invoke the named marshalled callback if the
transaction and callback exist, otherwise ignore; exceptions from the
callback are caught and ignored (state unchanged either way). -/
def onMessageCallback (st : ChanState) (id : Nat) (cb : String)
    (params : JsVal) : ChanState × List Ev :=
  match lookupOut st id with
  | none => (st, [])
  | some tr =>
    match (tr.callbacks.find? fun p => p.1 == cb).map (·.2) with
    | some f => (st, [.invokeCallback f params])
    | none => (st, [])

/-- `obj.unbind` (lines 570-578). -/
def chanUnbind (st : ChanState) (method : String) : Bool × ChanState :=
  let sm := scopeMethod st.scope method
  match lookupReg st sm with
  | some _ => (true, { st with regTbl := st.regTbl.filter fun p => p.1 ≠ sm })
  | none => (false, st)

/-- `obj.bind` (lines 579-588).  The handler is an abstract id (always a
function, so the `typeof cb` check is vacuous); on success the source does
`return this`, modelled by returning the (updated) channel. -/
def chanBind (st : ChanState) (method : String) (h : Nat) :
    Except String ChanState :=
  if method.length = 0 then .error "method argument to bind must be string"
  else
    let sm := scopeMethod st.scope method
    match lookupReg st sm with
    | some _ => .error ("Method " ++ sm ++ " is already bound!")
    | none => .ok { st with regTbl := (sm, h) :: st.regTbl }

/-- `obj.notify` (lines 663-672), with `isReactNativeWebView = false` so
`force = false` (the `paramsClone` deep copy is the identity on our pure
values). -/
def chanNotify (st : ChanState) (method : String) (params : JsVal) :
    ChanState × List Ev :=
  postMessage st (.notif (scopeMethod st.scope method) params) false

/-- The queue-flush loop of `onReady` (lines 553-556): dequeue from the
front and post with `force = true`. -/
def flushQueue (st : ChanState) : ChanState × List Ev :=
  ({ st with pendingQueue := [] }, st.pendingQueue.map .posted)

/-- The `onReady` handshake handler (lines 522-566), invoked with the
`__ready` notification payload `ty` ("ping" or "pong"; the source treats
anything other than "ping" like "pong").  While already ready: reply `pong`
to a stray `ping`, otherwise no-op.  Otherwise: unbind the (scoped)
`__ready` method, become ready, reply `pong` if `ty` is `ping` (sent
immediately, since `ready` is already true), flush the pending queue in
FIFO order, and invoke `cfg.onReady(obj)` if configured (its exceptions are
caught). -/
def onReadyMsg (st : ChanState) (ty : String) : ChanState × List Ev :=
  if st.ready then
    if ty == "ping" then chanNotify st "__ready" (.vstr "pong")
    else (st, [])
  else
    let st1 := (chanUnbind st "__ready").2
    let st2 := { st1 with ready := true }
    let pr := if ty == "ping" then chanNotify st2 "__ready" (.vstr "pong") else (st2, [])
    let fl := flushQueue pr.1
    let e5 : List Ev := if st.userOnReady then [.userReadyCb] else []
    (fl.1, pr.2 ++ fl.2 ++ e5)

/-- `obj.call` (lines 589-662), after marshalling: allocate the transaction
id, store the outbound record, register the id in the global map, and send
(or queue) the request.  `cbNames` / `cbFuns` are the marshaller's outputs
(`callbackNames` / `callbacks`), `timeoutId` the handle returned by
`setTransactionTimeout` when `m.timeout` is set. -/
def chanCall (st : ChanState) (currentId : Nat) (method : String)
    (params : JsVal) (cbNames : List String) (cbFuns : List (String × Nat))
    (success : Nat) (error : Option Nat) (timeoutId : Option Nat) :
    ChanState × List Ev :=
  let msg : WireMsg := .request currentId (scopeMethod st.scope method) params cbNames
  let st1 := { st with
    outTbl := (currentId,
      { callbacks := cbFuns, error := error, success := some success,
        timeoutId := timeoutId }) :: st.outTbl
    transIds := currentId :: st.transIds }
  postMessage st1 msg false

/-! ### Inbound transactions (createTransaction, lines 264-312, and the
Request branch of onMessage, lines 349-408)

The transaction object handed to a bound handler closes over a `completed`
flag, a `shouldDelayReturn` flag, and the channel tables.  A bound handler's
behaviour is modelled as a script: the ordered list of transaction-method
calls it makes (`HAct`), followed by an outcome — `.ok v` (return `v`
normally) or `.error e` (raise the JS value `e`).  An invalid
`trans.invoke` throws out of the handler, which is modelled by aborting the
script with that thrown value. -/

structure TransSt where
  completed : Bool
  delay : Bool

inductive HAct where
  | invoke (cb : String) (v : JsVal)
  | complete (v : JsVal)
  | error (kind : String) (message : JsVal)
  | delayReturn (b : Bool)

/-- `trans.invoke` (lines 271-281): no-op after completion or for a
nonexistent transaction; throws for an undeclared callback name; otherwise
posts a Callback-invocation message. -/
def transInvoke (st : ChanState) (ts : TransSt) (id : Nat)
    (cbs : List String) (cb : String) (v : JsVal) :
    ChanState × TransSt × List Ev × Option JsVal :=
  if ts.completed then (st, ts, [], none)
  else if (lookupIn st id).isNone then (st, ts, [], none)
  else if cbs.contains cb then
    let pr := postMessage st (.callbackInv id cb v) false
    (pr.1, ts, pr.2, none)
  else
    (st, ts, [], some (.vstr ("Request supports no such callback " ++ cb)))

/-- `trans.error` (lines 282-291): no-op after completion; sets `completed`,
removes the inbound entry, and posts an error Response. -/
def transError (st : ChanState) (ts : TransSt) (id : Nat)
    (kind : String) (message : JsVal) :
    ChanState × TransSt × List Ev × Option JsVal :=
  if ts.completed then (st, ts, [], none)
  else
    let ts' : TransSt := { ts with completed := true }
    if (lookupIn st id).isNone then (st, ts', [], none)
    else
      let st1 := { st with inTbl := st.inTbl.filter fun p => p.1 ≠ id }
      let pr := postMessage st1 (.errorResp id kind message) false
      (pr.1, ts', pr.2, none)

/-- `trans.complete` (lines 292-301): no-op after completion; sets
`completed`, removes the inbound entry, and posts a success Response. -/
def transComplete (st : ChanState) (ts : TransSt) (id : Nat) (v : JsVal) :
    ChanState × TransSt × List Ev × Option JsVal :=
  if ts.completed then (st, ts, [], none)
  else
    let ts' : TransSt := { ts with completed := true }
    if (lookupIn st id).isNone then (st, ts', [], none)
    else
      let st1 := { st with inTbl := st.inTbl.filter fun p => p.1 ≠ id }
      let pr := postMessage st1 (.response id v) false
      (pr.1, ts', pr.2, none)

/-- `trans.delayReturn` (lines 302-307) with a boolean argument. -/
def transDelayReturn (st : ChanState) (ts : TransSt) (b : Bool) :
    ChanState × TransSt × List Ev × Option JsVal :=
  (st, { ts with delay := b }, [], none)

def execAct (st : ChanState) (ts : TransSt) (id : Nat) (cbs : List String) :
    HAct → ChanState × TransSt × List Ev × Option JsVal
  | .invoke cb v => transInvoke st ts id cbs cb v
  | .complete v => transComplete st ts id v
  | .error k m => transError st ts id k m
  | .delayReturn b => transDelayReturn st ts b

/-- Run the handler's transaction-method calls in order; a thrown value
aborts the remainder. -/
def runActs (st : ChanState) (ts : TransSt) (id : Nat) (cbs : List String) :
    List HAct → ChanState × TransSt × List Ev × Option JsVal
  | [] => (st, ts, [], none)
  | a :: rest =>
    match execAct st ts id cbs a with
    | (st1, ts1, e1, some e) => (st1, ts1, e1, some e)
    | (st1, ts1, e1, none) =>
      match runActs st1 ts1 id cbs rest with
      | (st2, ts2, e2, thr) => (st2, ts2, e1 ++ e2, thr)

/-- The catch block of the Request branch (lines 382-403): normalize the
raised value and error the transaction unless it is already completed.  If
the normalization itself throws (raised `null`/`undefined`), the exception
escapes `onMessage`; the third component carries the escaped value. -/
def handleRaise (st : ChanState) (ts : TransSt) (id : Nat) (e : JsVal)
    (acc : List Ev) : ChanState × List Ev × Option JsVal :=
  match normalizeRaised e with
  | .ok (k, msg) =>
    if !ts.completed then
      match transError st ts id k msg with
      | (st', _, e2, _) => (st', acc ++ e2, none)
    else (st, acc, none)
  | .error t => (st, acc, some t)

/-- The Request branch of `onMessage` (`if (m.id && method)`, lines
349-408): with no bound handler the request is silently discarded;
otherwise create the transaction, record the inbound entry, run the handler
(its callback-stub params mutation is not otherwise observable and its
invocations are the script's `invoke` actions), then auto-complete on
normal return when neither delayed nor completed, or run the catch block on
a raise. -/
def onMessageRequest (st : ChanState) (id : Nat) (method : String)
    (cbs : List String) (acts : List HAct) (outcome : Except JsVal JsVal) :
    ChanState × List Ev × Option JsVal :=
  match lookupReg st method with
  | none => (st, [], none)
  | some _ =>
    let st1 := { st with inTbl := (id, cbs) :: st.inTbl }
    match runActs st1 ⟨false, false⟩ id cbs acts with
    | (st2, ts1, e1, some e) => handleRaise st2 ts1 id e e1
    | (st2, ts1, e1, none) =>
      match outcome with
      | .ok ret =>
        if !ts1.delay && !ts1.completed then
          match transComplete st2 ts1 id ret with
          | (st3, _, e2, _) => (st3, e1 ++ e2, none)
        else (st2, e1, none)
      | .error e => handleRaise st2 ts1 id e e1

/-! ### Callback marshaller (call, lines 597-643)

`params` values live in a heap of object nodes so that the cyclic
structures the cycle guards exist for are representable: a `HVal` is null,
a primitive (collapsed to its string image), a function value, or a
reference to an object node; the heap maps refs to ordered field lists.
Arrays iterate and stringify like objects for everything these claims
observe (`for (var k in ...)` / `hasOwnProperty` vs. JSON member order),
so no separate array node is modelled.

`cloneV` is `JSON.parse(JSON.stringify(params))` — run FIRST by `call`
(line 633): path-based cycle detection (throwing the circular-structure
TypeError), function-valued members dropped.  `pruneF` is `pruneFunctions`
(lines 602-627), run second (line 636): same path-based `seen` discipline
(push before the loop, pop after), recording each function-valued leaf
under its incrementally slash-joined path, throwing the
recursive-structure error on a revisit.  Both take fuel (decremented every
step) to be total; running out of fuel is a model-only error. -/

inductive HVal where
  | hnull
  | hprim (s : String)
  | hfun (fid : Nat)
  | href (r : Nat)
deriving DecidableEq, Repr

abbrev HeapT := List (Nat × List (String × HVal))

def lookupH (heap : HeapT) (r : Nat) : Option (List (String × HVal)) :=
  (heap.find? fun p => p.1 == r).map (·.2)

/-- Pure serialized values (the result of the deep value-clone). -/
inductive PVal where
  | pnull
  | pprim (s : String)
  | pfun (fid : Nat)
  | pobj (fields : List (String × PVal))

inductive CErr where
  | circular
  | dangling
  | fuelOut
deriving DecidableEq, Repr

inductive PErr where
  | recursive
  | dangling
  | fuelOut
deriving DecidableEq, Repr

/-- JS truthiness of a params value (`m.params ? ... : undefined`). -/
def hTruthy : HVal → Bool
  | .hnull => false
  | .hprim s => s != ""
  | .hfun _ => true
  | .href _ => true

/-- One left-to-right pass of the clone over an object's fields, given the
clone of a member value: member clones that are dropped (`none`: function
values) produce no field; the leftmost error wins. -/
def cloneFold (g : HVal → Except CErr (Option PVal))
    (l : List (String × HVal)) : Except CErr (List (String × PVal)) :=
  l.foldr
    (fun kv acc =>
      match g kv.2 with
      | .error e => .error e
      | .ok ov =>
        match acc with
        | .error e => .error e
        | .ok fs => .ok (match ov with | some pv => (kv.1, pv) :: fs | none => fs))
    (.ok [])

def cloneV : Nat → HeapT → List Nat → HVal → Except CErr (Option PVal)
  | 0, _, _, _ => .error .fuelOut
  | _ + 1, _, _, .hnull => .ok (some .pnull)
  | _ + 1, _, _, .hprim s => .ok (some (.pprim s))
  | _ + 1, _, _, .hfun _ => .ok none
  | fuel + 1, heap, seen, .href r =>
    if r ∈ seen then .error .circular
    else
      match lookupH heap r with
      | none => .error .dangling
      | some fields =>
        match cloneFold (fun w => cloneV fuel heap (r :: seen) w) fields with
        | .error e => .error e
        | .ok fs => .ok (some (.pobj fs))

/-- `np = path + (path.length ? '/' : '') + k` (line 613). -/
def joinOne (p k : String) : String :=
  p ++ (if p.length ≠ 0 then "/" else "") ++ k

/-- One left-to-right pass of `pruneFunctions` over an object's fields,
given the recursive walk `g np child` for object-valued children: a
function-valued child is recorded at its joined path, an object-valued
child is walked at its joined path, primitives and null are skipped. -/
def pruneFold (g : String → HVal → Except PErr (List (String × Nat)))
    (path : String) (l : List (String × HVal)) :
    Except PErr (List (String × Nat)) :=
  l.foldr
    (fun kv acc =>
      let np := joinOne path kv.1
      match kv.2 with
      | .hfun fid =>
        (match acc with
         | .error e => .error e
         | .ok rest => .ok ((np, fid) :: rest))
      | .href r' =>
        (match g np (.href r') with
         | .error e => .error e
         | .ok here =>
           match acc with
           | .error e => .error e
           | .ok rest => .ok (here ++ rest))
      | _ => acc)
    (.ok [])

def pruneF : Nat → HeapT → List Nat → String → HVal →
    Except PErr (List (String × Nat))
  | 0, _, _, _, _ => .error .fuelOut
  | _ + 1, _, _, _, .hnull => .ok []
  | _ + 1, _, _, _, .hprim _ => .ok []
  | _ + 1, _, _, _, .hfun _ => .ok []
  | fuel + 1, heap, seen, path, .href r =>
    if r ∈ seen then .error .recursive
    else
      match lookupH heap r with
      | none => .error .dangling
      | some fields =>
        pruneFold (fun np w => pruneF fuel heap (r :: seen) np w) path fields

/-- Modelled from the spec: the function-valued leaves of the params tree,
each with its list of key segments from the root (the spec's "slash-joined
key segments from the root" before joining), in traversal order, with the
spec's cycle guard.  Used only to be compared with `pruneF`. -/
def leavesFold (g : HVal → Except PErr (List (List String × Nat)))
    (l : List (String × HVal)) : Except PErr (List (List String × Nat)) :=
  l.foldr
    (fun kv acc =>
      match kv.2 with
      | .hfun fid =>
        (match acc with
         | .error e => .error e
         | .ok rest => .ok (([kv.1], fid) :: rest))
      | .href r' =>
        (match g (.href r') with
         | .error e => .error e
         | .ok here =>
           match acc with
           | .error e => .error e
           | .ok rest => .ok (here.map (fun q => (kv.1 :: q.1, q.2)) ++ rest))
      | _ => acc)
    (.ok [])

def specLeaves : Nat → HeapT → List Nat → HVal →
    Except PErr (List (List String × Nat))
  | 0, _, _, _ => .error .fuelOut
  | _ + 1, _, _, .hnull => .ok []
  | _ + 1, _, _, .hprim _ => .ok []
  | _ + 1, _, _, .hfun _ => .ok []
  | fuel + 1, heap, seen, .href r =>
    if r ∈ seen then .error .recursive
    else
      match lookupH heap r with
      | none => .error .dangling
      | some fields =>
        leavesFold (fun w => specLeaves fuel heap (r :: seen) w) fields

/-- Modelled from the spec: "slash-joined" path of a list of key
segments. -/
def slashJoin : List String → String
  | [] => ""
  | [k] => k
  | k :: rest => k ++ "/" ++ slashJoin rest

inductive CallFail where
  | cloneFail (e : CErr)
  | pruneFail (e : PErr)
deriving DecidableEq, Repr

/-- The marshalling phase of `call` (lines 630-643), in source order: the
deep value-clone of `m.params` first (line 633; skipped — `undefined` —
when `m.params` is falsy), then `pruneFunctions("", m.params)` (line 636,
a no-op on falsy params since they are not objects).  Returns the cloned
wire payload and the ordered (path, function) callback list. -/
def marshalParams (fuel : Nat) (heap : HeapT) (params : Option HVal) :
    Except CallFail (Option PVal × List (String × Nat)) :=
  match params with
  | none => .ok (none, [])
  | some p =>
    if hTruthy p then
      match cloneV fuel heap [] p with
      | .error e => .error (.cloneFail e)
      | .ok c =>
        match pruneF fuel heap [] "" p with
        | .error e => .error (.pruneFail e)
        | .ok cbs => .ok (c, cbs)
    else .ok (none, [])

/-- No function value occurs anywhere in a serialized value. -/
def noFun : PVal → Bool
  | .pnull => true
  | .pprim _ => true
  | .pfun _ => false
  | .pobj fs => noFunFields fs
where noFunFields : List (String × PVal) → Bool
  | [] => true
  | kv :: rest => noFun kv.2 && noFunFields rest

/-- Every key of every object node in the heap is a nonempty string. -/
def goodKeys (heap : HeapT) : Bool :=
  heap.all fun p => p.2.all fun q => q.1 != ""

/-- `r` has a field referencing `r'` (one step of the ref graph). -/
def stepsTo (heap : HeapT) (r r' : Nat) : Prop :=
  ∃ fields k, lookupH heap r = some fields ∧ (k, HVal.href r') ∈ fields

/-- Reachability in the ref graph. -/
inductive Reach (heap : HeapT) : Nat → Nat → Prop where
  | refl (r : Nat) : Reach heap r r
  | tail {a b c : Nat} : Reach heap a b → stepsTo heap b c → Reach heap a c

/-- There is a descending ref path of length `n` starting at `r`. -/
inductive ChainR (heap : HeapT) : Nat → Nat → Prop where
  | zero (r : Nat) : ChainR heap r 0
  | succ {r r' : Nat} {n : Nat} :
    stepsTo heap r r' → ChainR heap r' n → ChainR heap r (n + 1)

/-! ### Trace predicates and concrete scenarios used by the claims -/

def isInvokeEv : Ev → Bool
  | .invokeSuccess _ _ => true
  | .invokeError _ _ _ => true
  | _ => false

def isRemoveEv : Ev → Bool
  | .removeOut _ => true
  | .removeGlobal _ => true
  | _ => false

/-- Some handler invocation occurs strictly before some table removal. -/
def invokeThenRemove : List Ev → Bool
  | [] => false
  | e :: rest => (isInvokeEv e && rest.any isRemoveEv) || invokeThenRemove rest

/-- The messages a trace hands to the transport, in order. -/
def transportOf (evs : List Ev) : List WireMsg :=
  evs.filterMap fun e => match e with | .posted m => some m | _ => none

/-- A handshake message of the unscoped `__ready` channel of the concrete
scenario below. -/
def isHandshakeMsg : WireMsg → Bool
  | .notif meth _ => meth == "__ready"
  | _ => false

/-- Every handshake message precedes every non-handshake message. -/
def handshakeFirst : List WireMsg → Bool
  | [] => true
  | m :: rest =>
    if isHandshakeMsg m then handshakeFirst rest
    else rest.all fun x => !isHandshakeMsg x

/-- A terminal Response (success or error) for transaction `id`, whether
posted or queued. -/
def isTerminalEv (id : Nat) : Ev → Bool
  | .posted (.response j _) => j == id
  | .posted (.errorResp j _ _) => j == id
  | .queued (.response j _) => j == id
  | .queued (.errorResp j _ _) => j == id
  | _ => false

def terminalCount (id : Nat) (evs : List Ev) : Nat :=
  evs.countP (isTerminalEv id)

def isUserReadyEv : Ev → Bool
  | .userReadyCb => true
  | _ => false

/-- The handler the Response branch selects: the error handler when
`m.error` is truthy, the success handler otherwise. -/
def handlerFor (tr : OutRec) : Option (String × JsVal) → Option Nat
  | some _ => tr.error
  | none => tr.success

/-- A handler script that neither completes, errors, nor delay-flags the
transaction, and whose callback invocations are all declared (so none
throws). -/
def benignActs (cbs : List String) : List HAct → Bool
  | [] => true
  | .invoke cb _ :: rest => cbs.contains cb && benignActs cbs rest
  | .delayReturn b :: rest => !b && benignActs cbs rest
  | .complete _ :: _ => false
  | .error _ _ :: _ => false

/-- The incremental path accumulation of `pruneFunctions` along a segment
list. -/
def joinSegs (p : String) (segs : List String) : String :=
  segs.foldl joinOne p

/-- C5 scenario: a freshly built channel (empty scope, `__ready` bound, not
ready, nothing queued). -/
def c5St0 : ChanState :=
  { scope := "", ready := false, regTbl := [("__ready", 0)], outTbl := [],
    inTbl := [], pendingQueue := [], transIds := [], userOnReady := false }

/-- C5 scenario, step 1: the application sends a notification right after
`build` returns, before the zero-delay handshake timer has fired. -/
def c5AfterNotify : ChanState × List Ev :=
  chanNotify c5St0 "hello" (.vstr "x")

/-- C5 scenario, step 2: the `build`-time timer fires and sends the
channel's own `ping` (line 711: `postMessage(\x7b method:
scopeMethod('__ready'), params: "ping" \x7d, false)`), which is queued
because the channel is not ready. -/
def c5AfterPing : ChanState × List Ev :=
  postMessage c5AfterNotify.1 (.notif (scopeMethod "" "__ready") (.vstr "ping")) false

/-- C5 scenario, step 3: the remote side's `ping` arrives and the `__ready`
handler runs. -/
def c5Final : ChanState × List Ev :=
  onReadyMsg c5AfterPing.1 "ping"

/-- C5 scenario: everything the transport observes, in order. -/
def c5Transport : List WireMsg :=
  transportOf (c5AfterNotify.2 ++ c5AfterPing.2 ++ c5Final.2)

/-- C1 counterexample state: one outbound transaction, id 5, with error
handler 8 and success handler 9, no timeout, registered in the global
map. -/
def c1St : ChanState :=
  { scope := "", ready := true, regTbl := []
    outTbl := [(5, { callbacks := [], error := some 8, success := some 9,
                     timeoutId := none })]
    inTbl := [], pendingQueue := [], transIds := [5], userOnReady := false }

/-- C6 counterexample heap: node 0 whose field `a` refers back to node 0. -/
def c6CycleHeap : HeapT := [(0, [("a", .href 0)])]

/-- C6 witness heap: an acyclic params tree
`\x7b a: \x7b g: fn8, x: "v" \x7d, f: fn7 \x7d`. -/
def c6GoodHeap : HeapT :=
  [(0, [("a", .href 1), ("f", .hfun 7)]),
   (1, [("g", .hfun 8), ("x", .hprim "v")])]

/-! ### Helper lemmas -/

theorem find?_key_filter_ne {α : Type _} (l : List (Nat × α)) (k : Nat) :
    (l.filter fun p => p.1 ≠ k).find? (fun p => p.1 == k) = none := by
  induction l with
  | nil => rfl
  | cons a t ih =>
    by_cases h : a.1 = k
    · simp [List.filter_cons, h, ih]
    · simp [List.filter_cons, h, List.find?_cons, ih]

theorem lookupOut_cleanup (st : ChanState) (id : Nat) :
    lookupOut (cleanupTrans st id) id = none := by
  simp [lookupOut, cleanupTrans, find?_key_filter_ne]

theorem not_mem_transIds_cleanup (st : ChanState) (id : Nat) :
    id ∉ (cleanupTrans st id).transIds := by
  simp [cleanupTrans]

theorem transportOf_append (a b : List Ev) :
    transportOf (a ++ b) = transportOf a ++ transportOf b := by
  simp [transportOf]

theorem transportOf_map_posted (l : List WireMsg) :
    transportOf (l.map .posted) = l := by
  induction l with
  | nil => rfl
  | cons a t ih => simpa [transportOf] using ih

theorem transportOf_posted_singleton (m : WireMsg) :
    transportOf [Ev.posted m] = [m] := rfl

theorem transportOf_userReady : transportOf [Ev.userReadyCb] = [] := rfl

theorem transportOf_nil : transportOf [] = [] := rfl

theorem transportOf_cons_posted (m : WireMsg) (evs : List Ev) :
    transportOf (Ev.posted m :: evs) = m :: transportOf evs := rfl

theorem transportOf_cons_userReady (evs : List Ev) :
    transportOf (Ev.userReadyCb :: evs) = transportOf evs := rfl

/-! ### Claim C2 (Endpoint registry duplicate detection) -/

/-- Claim C2 counterexample: with a wildcard registration for window 0 and
scope "s" already present, a second registration with the identical
wildcard origin pattern, same window and same scope does NOT fail with the
duplicate-binding error — it succeeds and inserts a duplicate entry,
because the wildcard scan (lines 39-46) skips the `'*'` key itself
(`if (k === '*') continue`). -/
theorem C2_counterexample :
    s_addBoundChan [⟨"*", "s", 0⟩] 0 "*" "s" =
      .ok [⟨"*", "s", 0⟩, ⟨"*", "s", 0⟩] := rfl

/-- Claim C2 (amended): registering on the global endpoint registry fails
with the duplicate-binding error exactly when (a) the new origin is the
wildcard and some existing registration with the same window and scope has
a concrete (non-wildcard) origin, or (b) the new origin is concrete and
some existing registration with the same window and scope has the wildcard
origin or the identical concrete origin.  In particular two wildcard
registrations with the same window and scope do NOT collide; on success the
entry is inserted. -/
theorem C2_register_duplicate_characterization :
    ∀ (tbl : List BoundEntry) (win : Nat) (origin scope : String),
      ((∃ msg, s_addBoundChan tbl win origin scope = .error msg) ↔
        (if origin = "*" then
          ∃ e ∈ tbl, e.origin ≠ "*" ∧ e.scope = scope ∧ e.win = win
        else
          ∃ e ∈ tbl, (e.origin = "*" ∨ e.origin = origin) ∧ e.scope = scope ∧ e.win = win))
      ∧ (∀ tbl', s_addBoundChan tbl win origin scope = .ok tbl' →
          tbl' = tbl ++ [⟨origin, scope, win⟩]) := by
  intro tbl win origin scope
  have hspec : hasOverlap tbl win origin scope = true ↔
      (if origin = "*" then
        ∃ e ∈ tbl, e.origin ≠ "*" ∧ e.scope = scope ∧ e.win = win
      else
        ∃ e ∈ tbl, (e.origin = "*" ∨ e.origin = origin) ∧ e.scope = scope ∧ e.win = win) := by
    by_cases ho : origin = "*" <;> simp [hasOverlap, ho, List.any_eq_true, and_assoc]
  constructor
  · rw [← hspec]
    by_cases hex : hasOverlap tbl win origin scope = true <;>
      simp [s_addBoundChan, hex]
  · intro tbl' h
    by_cases hex : hasOverlap tbl win origin scope = true <;>
      simp [s_addBoundChan, hex] at h
    exact h.symm

/-- Witness for C2: on the empty registry a wildcard registration succeeds
and inserts the entry. -/
theorem C2_register_duplicate_characterization_witness :
    s_addBoundChan ([] : List BoundEntry) 0 "*" "s" = .ok [⟨"*", "s", 0⟩] ∧
    ([⟨"*", "s", 0⟩] : List BoundEntry) = [] ++ [⟨"*", "s", 0⟩] :=
  ⟨rfl, (C2_register_duplicate_characterization [] 0 "*" "s").2 _ rfl⟩

/-! ### Claim C7 (raised-value normalization) -/

/-- Claim C7 counterexample: a bound handler that raises `null` is in the
claim's "anything else" bucket, but the engine does not produce the generic
runtime-error pair for it: the catch block's eager `var message =
e.toString()` itself throws a TypeError (likewise for `undefined`), so
normalization yields no (errorKind, errorMessage) pair at all and the
exception escapes `onMessage`. -/
theorem C7_counterexample :
    ¬ ∃ p, normalizeRaised JsVal.vnull = .ok p := by
  rintro ⟨p, hp⟩
  simp [normalizeRaised] at hp

/-- Claim C7 (amended): the raised-value normalization follows the claimed
precedence — two-element array with string head used directly; object with
string `error` field used with its `message` (stringified when not itself a
string); plain string becomes the generic-kind message; numbers, booleans
and functions are stringified under the generic kind — EXCEPT that a raised
`null` or `undefined` makes the normalization itself throw (no pair is
produced and the transaction is not errored).  When normalization does
produce a pair and the handler raised, the inbound transaction is errored
with exactly that pair unless it was already completed during the handler's
execution, in which case no error Response is sent. -/
theorem C7_normalize_precedence :
    (∀ s, normalizeRaised (.vstr s) = .ok ("runtime_error", .vstr s))
    ∧ (∀ k v, normalizeRaised (.varr [.vstr k, v]) = .ok (k, v))
    ∧ (∀ fs k ms, getField fs "error" = some (.vstr k) →
        getField fs "message" = some (.vstr ms) →
        normalizeRaised (.vobj fs) = .ok (k, .vstr ms))
    ∧ (∀ fs, (∀ k, getField fs "error" ≠ some (.vstr k)) →
        normalizeRaised (.vobj fs) =
          .ok ("runtime_error", .vstr ((jsStringify (.vobj fs)).getD "undefined")))
    ∧ (∀ n, normalizeRaised (.vnum n) = .ok ("runtime_error", .vstr (jsToString (.vnum n))))
    ∧ (∀ b, normalizeRaised (.vbool b) = .ok ("runtime_error", .vstr (jsToString (.vbool b))))
    ∧ (∀ f, normalizeRaised (.vfun f) = .ok ("runtime_error", .vstr (jsToString (.vfun f))))
    ∧ (∃ t, normalizeRaised .vnull = .error t)
    ∧ (∃ t, normalizeRaised .vundefined = .error t)
    ∧ (∀ (st : ChanState) (id : Nat) (method : String) (cbs : List String)
        (e : JsVal) (k : String) (mv : JsVal) (hh : Nat),
        lookupReg st method = some hh →
        normalizeRaised e = .ok (k, mv) →
        (onMessageRequest st id method cbs [] (.error e)).2.1 =
          [if st.ready then Ev.posted (.errorResp id k mv)
           else Ev.queued (.errorResp id k mv)])
    ∧ (∀ (st : ChanState) (id : Nat) (method : String) (cbs : List String)
        (e v : JsVal) (hh : Nat),
        lookupReg st method = some hh →
        (onMessageRequest st id method cbs [HAct.complete v] (.error e)).2.1 =
          [if st.ready then Ev.posted (.response id v)
           else Ev.queued (.response id v)]) := by
  refine ⟨fun s => rfl, fun k v => rfl, ?_, ?_, fun n => rfl, fun b => rfl,
    fun f => rfl, ⟨_, rfl⟩, ⟨_, rfl⟩, ?_, ?_⟩
  · intro fs k ms h1 h2
    simp [normalizeRaised, h1, h2]
  · intro fs hne
    rcases h : getField fs "error" with _ | v
    · simp [normalizeRaised, h]
    · cases v <;> simp [normalizeRaised, h]
      exact absurd h (hne _)
  · intro st id method cbs e k mv hh hreg hnorm
    cases hready : st.ready <;>
      simp [onMessageRequest, hreg, runActs, handleRaise, hnorm, transError,
        lookupIn, List.find?, postMessage, hready]
  · intro st id method cbs e v hh hreg
    rcases hn : normalizeRaised e with t | p <;>
      cases hready : st.ready <;>
        simp [onMessageRequest, hreg, runActs, execAct, transComplete,
          lookupIn, List.find?, postMessage, hready, handleRaise, hn]

/-- Witness for C7: exercises the object-with-error-field hypothesis and
the engine-level hypotheses at concrete inputs (raised value `["k","m"]`,
a channel with method "f" bound). -/
theorem C7_normalize_precedence_witness :
    (getField [("error", JsVal.vstr "k"), ("message", JsVal.vstr "m")] "error" =
        some (.vstr "k") ∧
      normalizeRaised (.vobj [("error", .vstr "k"), ("message", .vstr "m")]) =
        .ok ("k", .vstr "m")) ∧
    (onMessageRequest
        { scope := "", ready := true, regTbl := [("f", 3)], outTbl := [],
          inTbl := [], pendingQueue := [], transIds := [], userOnReady := false }
        4 "f" [] [] (.error (.vstr "boom"))).2.1 =
      [Ev.posted (.errorResp 4 "runtime_error" (.vstr "boom"))] := by
  refine ⟨⟨rfl, C7_normalize_precedence.2.2.1 _ "k" "m" rfl rfl⟩, ?_⟩
  have h := C7_normalize_precedence.2.2.2.2.2.2.2.2.2.1
    { scope := "", ready := true, regTbl := [("f", 3)], outTbl := [],
      inTbl := [], pendingQueue := [], transIds := [], userOnReady := false }
    4 "f" [] (.vstr "boom") "runtime_error" (.vstr "boom") 3 rfl rfl
  simpa using h

/-! ### Claim C9 (bind / unbind) -/

theorem find?_str_filter_ne {α : Type _} (l : List (String × α)) (k : String) :
    (l.filter fun p => p.1 ≠ k).find? (fun p => p.1 == k) = none := by
  induction l with
  | nil => rfl
  | cons a t ih =>
    by_cases h : a.1 = k
    · simp [List.filter_cons, h, ih]
    · simp [List.filter_cons, h, List.find?_cons, ih]

theorem chanUnbind_eq (st : ChanState) (m : String) (h : Nat)
    (hlook : lookupReg st (scopeMethod st.scope m) = some h) :
    chanUnbind st m =
      (true,
        { st with regTbl := st.regTbl.filter (fun p => p.1 ≠ scopeMethod st.scope m) }) := by
  simp [chanUnbind, hlook]

theorem lookupReg_filter_self (st : ChanState) (sm : String) :
    lookupReg { st with regTbl := st.regTbl.filter (fun p => p.1 ≠ sm) } sm = none := by
  simp only [lookupReg]
  rw [find?_str_filter_ne]
  rfl

/-- Claim C9: binding a method already bound in the same scope fails with
the duplicate-binding error (the registry is returned unchanged, the throw
happening before the table assignment); a successful bind returns the
channel itself with the handler registered; unbind returns true and removes
the entry when the scoped method was bound and false otherwise; and binding
again after a successful unbind succeeds. -/
theorem C9_bind_unbind :
    ∀ (st : ChanState) (m : String) (h hid hid' : Nat),
      (m.length ≠ 0 → lookupReg st (scopeMethod st.scope m) = some h →
        chanBind st m hid =
          .error ("Method " ++ scopeMethod st.scope m ++ " is already bound!"))
      ∧ (m.length ≠ 0 → lookupReg st (scopeMethod st.scope m) = none →
          chanBind st m hid =
            .ok { st with regTbl := (scopeMethod st.scope m, hid) :: st.regTbl })
      ∧ (lookupReg st (scopeMethod st.scope m) = some h →
          (chanUnbind st m).1 = true ∧
          lookupReg (chanUnbind st m).2 (scopeMethod st.scope m) = none)
      ∧ (lookupReg st (scopeMethod st.scope m) = none → chanUnbind st m = (false, st))
      ∧ (m.length ≠ 0 → lookupReg st (scopeMethod st.scope m) = some h →
          chanBind (chanUnbind st m).2 m hid' =
            .ok { (chanUnbind st m).2 with
                  regTbl := (scopeMethod st.scope m, hid') ::
                    (chanUnbind st m).2.regTbl }) := by
  intro st m h hid hid'
  refine ⟨?_, ?_, ?_, ?_, ?_⟩
  · intro hm hlook
    simp [chanBind, hm, hlook]
  · intro hm hlook
    simp [chanBind, hm, hlook]
  · intro hlook
    rw [chanUnbind_eq st m h hlook]
    exact ⟨rfl, lookupReg_filter_self st (scopeMethod st.scope m)⟩
  · intro hlook
    simp [chanUnbind, hlook]
  · intro hm hlook
    rw [chanUnbind_eq st m h hlook]
    have hnone := lookupReg_filter_self st (scopeMethod st.scope m)
    simp at hnone
    simp [chanBind, hm, hnone]

/-- Witness for C9: on a channel with "f" bound (handler 1), a duplicate
bind fails, unbind succeeds, and rebinding afterwards succeeds. -/
theorem C9_bind_unbind_witness :
    ("f" : String).length ≠ 0 ∧
    lookupReg
      { scope := "", ready := false, regTbl := [("f", 1)], outTbl := [],
        inTbl := [], pendingQueue := [], transIds := [], userOnReady := false }
      (scopeMethod "" "f") = some 1 ∧
    chanBind
      { scope := "", ready := false, regTbl := [("f", 1)], outTbl := [],
        inTbl := [], pendingQueue := [], transIds := [], userOnReady := false }
      "f" 2 = .error ("Method " ++ scopeMethod "" "f" ++ " is already bound!") := by
  refine ⟨by decide, rfl, ?_⟩
  exact (C9_bind_unbind
    { scope := "", ready := false, regTbl := [("f", 1)], outTbl := [],
      inTbl := [], pendingQueue := [], transIds := [], userOnReady := false }
    "f" 1 2 3).1 (by decide) rfl

/-! ### Claim C1 (Response delivery: ordering, exactly-once, cleanup) -/

/-- Claim C1 counterexample: delivering a success Response for transaction
5 of `c1St` invokes the success handler STRICTLY BEFORE removing the
transaction from the outbound table and the global id map — the two
deletes sit in the `finally` block (lines 452-456) and run after the
handler, not before the handler as the claim states. -/
theorem C1_counterexample :
    (onMessageResponse (fun _ => false) c1St 5 none (.vstr "r")).2 =
      [.invokeSuccess 9 (.vstr "r"), .removeOut 5, .removeGlobal 5] ∧
    invokeThenRemove
      (onMessageResponse (fun _ => false) c1St 5 none (.vstr "r")).2 = true :=
  ⟨rfl, rfl⟩

/-- Claim C1 (amended): for every inbound Response whose id matches an
existing Outbound Transaction (whose selected handler is present), the
engine cancels the transaction's timer when one is armed, invokes exactly
one of the success handler (with the result) or the error handler (with
the error kind and message), and removes the transaction from the
per-channel outbound table and the global id map — the removal happening
AFTER the handler invocation (in a finally block), not before it; neither
handler runs more than once for one transaction, a second delivery for the
same id being a no-op. -/
theorem C1_response_delivery :
    ∀ (raises : Nat → Bool) (st : ChanState) (id : Nat)
      (error : Option (String × JsVal)) (result : JsVal) (tr : OutRec) (h : Nat),
      lookupOut st id = some tr → handlerFor tr error = some h →
      (onMessageResponse raises st id error result).1 = cleanupTrans st id ∧
      lookupOut (onMessageResponse raises st id error result).1 id = none ∧
      id ∉ (onMessageResponse raises st id error result).1.transIds ∧
      (onMessageResponse raises st id error result).2 =
        (match tr.timeoutId with | some t => [Ev.cancelTimer t] | none => []) ++
        [(match error with
          | some km => Ev.invokeError h km.1 km.2
          | none => Ev.invokeSuccess h result)] ++
        (if raises h then [Ev.handlerRaised] else []) ++
        [.removeOut id, .removeGlobal id] ∧
      ((onMessageResponse raises st id error result).2.countP isInvokeEv = 1) ∧
      (∀ raises' error' result',
        onMessageResponse raises'
            (onMessageResponse raises st id error result).1 id error' result' =
          ((onMessageResponse raises st id error result).1, [])) := by
  intro raises st id error result tr h hlook hh
  have hstate : (onMessageResponse raises st id error result).1 = cleanupTrans st id := by
    simp [onMessageResponse, hlook]
  have htrace : (onMessageResponse raises st id error result).2 =
      (match tr.timeoutId with | some t => [Ev.cancelTimer t] | none => []) ++
      [(match error with
        | some km => Ev.invokeError h km.1 km.2
        | none => Ev.invokeSuccess h result)] ++
      (if raises h then [Ev.handlerRaised] else []) ++
      [.removeOut id, .removeGlobal id] := by
    rcases error with _ | ⟨k, msg⟩ <;>
      simp [handlerFor] at hh <;>
      cases hr : raises h <;>
        simp [onMessageResponse, hlook, hh, hr]
  refine ⟨hstate, ?_, ?_, htrace, ?_, ?_⟩
  · rw [hstate]; exact lookupOut_cleanup st id
  · rw [hstate]; exact not_mem_transIds_cleanup st id
  · rw [htrace]
    rcases tr.timeoutId with _ | t <;> rcases error with _ | km <;>
      cases hr : raises h <;>
        simp [hr, List.countP_append, List.countP_cons, isInvokeEv]
  · intro raises' error' result'
    rw [hstate]
    simp [onMessageResponse, lookupOut_cleanup]

/-- Witness for C1 (amended): concrete delivery on `c1St` (one transaction,
id 5, success handler 9, error handler 8, no timer). -/
theorem C1_response_delivery_witness :
    lookupOut c1St 5 =
      some { callbacks := [], error := some 8, success := some 9, timeoutId := none } ∧
    (onMessageResponse (fun _ => false) c1St 5 none (.vstr "r")).1 = cleanupTrans c1St 5 := by
  refine ⟨rfl, ?_⟩
  exact (C1_response_delivery (fun _ => false) c1St 5 none (.vstr "r")
    { callbacks := [], error := some 8, success := some 9, timeoutId := none } 9
    rfl rfl).1

/-! ### Claim C10 (cleanup survives handler exceptions) -/

/-- Claim C10: for Response delivery and timeout firing alike, the
resulting engine state does not depend on whether the user handler raises
(the exception is swallowed by the catch and the `finally` deletes run
regardless), and when the transaction exists the post-state is exactly the
cleaned-up state: the id is gone from the outbound table and the global id
map, and the Response path cancelled the timer when one was armed. -/
theorem C10_cleanup_despite_handler_exception :
    ∀ (raises raises' : Nat → Bool) (st : ChanState) (id : Nat)
      (error : Option (String × JsVal)) (result : JsVal) (timeout : Nat) (method : String),
      ((onMessageResponse raises st id error result).1 =
        (onMessageResponse raises' st id error result).1)
      ∧ ((setTransactionTimeoutFire raises st id timeout method).1 =
          (setTransactionTimeoutFire raises' st id timeout method).1)
      ∧ (∀ tr, lookupOut st id = some tr →
          (onMessageResponse raises st id error result).1 = cleanupTrans st id ∧
          lookupOut (onMessageResponse raises st id error result).1 id = none ∧
          id ∉ (onMessageResponse raises st id error result).1.transIds ∧
          (∀ t, tr.timeoutId = some t →
            Ev.cancelTimer t ∈ (onMessageResponse raises st id error result).2) ∧
          (setTransactionTimeoutFire raises st id timeout method).1 = cleanupTrans st id ∧
          lookupOut (setTransactionTimeoutFire raises st id timeout method).1 id = none ∧
          id ∉ (setTransactionTimeoutFire raises st id timeout method).1.transIds) := by
  intro raises raises' st id error result timeout method
  refine ⟨?_, ?_, ?_⟩
  · rcases hlook : lookupOut st id with _ | tr <;>
      simp [onMessageResponse, hlook]
  · rcases hlook : lookupOut st id with _ | tr <;>
      simp [setTransactionTimeoutFire, hlook]
  · intro tr hlook
    have h1 : (onMessageResponse raises st id error result).1 = cleanupTrans st id := by
      simp [onMessageResponse, hlook]
    have h2 : (setTransactionTimeoutFire raises st id timeout method).1 = cleanupTrans st id := by
      simp [setTransactionTimeoutFire, hlook]
    refine ⟨h1, ?_, ?_, ?_, h2, ?_, ?_⟩
    · rw [h1]; exact lookupOut_cleanup st id
    · rw [h1]; exact not_mem_transIds_cleanup st id
    · intro t ht
      simp [onMessageResponse, hlook, ht]
    · rw [h2]; exact lookupOut_cleanup st id
    · rw [h2]; exact not_mem_transIds_cleanup st id

/-- Witness for C10: cleanup of transaction 5 of `c1St` with a raising
success handler. -/
theorem C10_cleanup_witness :
    lookupOut c1St 5 =
      some { callbacks := [], error := some 8, success := some 9, timeoutId := none } ∧
    (onMessageResponse (fun _ => true) c1St 5 none (.vstr "r")).1 = cleanupTrans c1St 5 := by
  refine ⟨rfl, ?_⟩
  exact ((C10_cleanup_despite_handler_exception (fun _ => true) (fun _ => false)
    c1St 5 none (.vstr "r") 0 "f").2.2 _ rfl).1

/-! ### Claim C3 (timeout path: exactly-once error, cleanup, late no-ops) -/

/-- Claim C3: when the timer of a call armed with a timeout fires while the
Outbound Transaction is still present (no matching response was delivered
first), the error handler is invoked exactly once with the reserved
`"timeout_error"` kind, the transaction is removed from the outbound table
and the global id map, and any Response, Callback-invocation, or further
timer firing for that id afterwards is a silent no-op. -/
theorem C3_timeout_fires_once_then_noop :
    ∀ (raises : Nat → Bool) (st : ChanState) (id timeout : Nat) (method : String)
      (tr : OutRec) (eh : Nat),
      lookupOut st id = some tr → tr.error = some eh →
      ((setTransactionTimeoutFire raises st id timeout method).2 =
        [Ev.invokeError eh "timeout_error"
          (.vstr ("timeout (" ++ toString timeout ++ "ms) exceeded on method " ++ method))] ++
        (if raises eh then [Ev.handlerRaised] else []) ++
        [.removeOut id, .removeGlobal id]) ∧
      ((setTransactionTimeoutFire raises st id timeout method).2.countP isInvokeEv = 1) ∧
      lookupOut (setTransactionTimeoutFire raises st id timeout method).1 id = none ∧
      id ∉ (setTransactionTimeoutFire raises st id timeout method).1.transIds ∧
      (∀ raises' error' result',
        onMessageResponse raises'
            (setTransactionTimeoutFire raises st id timeout method).1 id error' result' =
          ((setTransactionTimeoutFire raises st id timeout method).1, [])) ∧
      (∀ cb params,
        onMessageCallback
            (setTransactionTimeoutFire raises st id timeout method).1 id cb params =
          ((setTransactionTimeoutFire raises st id timeout method).1, [])) ∧
      (∀ raises'' timeout' method',
        setTransactionTimeoutFire raises''
            (setTransactionTimeoutFire raises st id timeout method).1 id timeout' method' =
          ((setTransactionTimeoutFire raises st id timeout method).1, [])) := by
  intro raises st id timeout method tr eh hlook herr
  have hstate : (setTransactionTimeoutFire raises st id timeout method).1 =
      cleanupTrans st id := by
    simp [setTransactionTimeoutFire, hlook]
  have hnone : lookupOut (setTransactionTimeoutFire raises st id timeout method).1 id = none := by
    rw [hstate]; exact lookupOut_cleanup st id
  refine ⟨?_, ?_, hnone, ?_, ?_, ?_, ?_⟩
  · cases hr : raises eh <;>
      simp [setTransactionTimeoutFire, hlook, herr, hr]
  · cases hr : raises eh <;>
      simp [setTransactionTimeoutFire, hlook, herr, hr, List.countP_append,
        List.countP_cons, isInvokeEv]
  · rw [hstate]; exact not_mem_transIds_cleanup st id
  · intro raises' error' result'
    simp [onMessageResponse, hnone]
  · intro cb params
    simp [onMessageCallback, hnone]
  · intro raises'' timeout' method'
    rw [hstate]
    simp [setTransactionTimeoutFire, lookupOut_cleanup]

/-- Witness for C3: a concrete state with transaction 1, error handler 7
and an armed timer; the timer fires. -/
theorem C3_timeout_witness :
    lookupOut
      { scope := "", ready := true, regTbl := []
        outTbl := [(1, { callbacks := [], error := some 7, success := some 8,
                         timeoutId := some 3 })]
        inTbl := [], pendingQueue := [], transIds := [1], userOnReady := false }
      1 = some { callbacks := [], error := some 7, success := some 8, timeoutId := some 3 } ∧
    (setTransactionTimeoutFire (fun _ => false)
      { scope := "", ready := true, regTbl := []
        outTbl := [(1, { callbacks := [], error := some 7, success := some 8,
                         timeoutId := some 3 })]
        inTbl := [], pendingQueue := [], transIds := [1], userOnReady := false }
      1 50 "slowOp").2 =
      [Ev.invokeError 7 "timeout_error"
        (.vstr ("timeout (" ++ toString 50 ++ "ms) exceeded on method " ++ "slowOp"))] ++
      [] ++ [.removeOut 1, .removeGlobal 1] := by
  refine ⟨rfl, ?_⟩
  have h := (C3_timeout_fires_once_then_noop (fun _ => false)
    { scope := "", ready := true, regTbl := []
      outTbl := [(1, { callbacks := [], error := some 7, success := some 8,
                       timeoutId := some 3 })]
      inTbl := [], pendingQueue := [], transIds := [1], userOnReady := false }
    1 50 "slowOp"
    { callbacks := [], error := some 7, success := some 8, timeoutId := some 3 } 7
    rfl rfl).1
  simpa using h

/-! ### Claim C4 (handshake completion) and Claim C5 (pre-ready queueing) -/

theorem chanUnbind_scope (st : ChanState) (m : String) :
    (chanUnbind st m).2.scope = st.scope := by
  rcases hl : lookupReg st (scopeMethod st.scope m) with _ | h <;>
    simp [chanUnbind, hl]

/-- Computation of `onReady` from the NotReady state. -/
theorem onReadyMsg_not_ready (st : ChanState) (ty : String)
    (hr : st.ready = false) :
    onReadyMsg st ty =
      ({ (chanUnbind st "__ready").2 with ready := true, pendingQueue := [] },
       (if ty == "ping"
        then [Ev.posted (.notif (scopeMethod st.scope "__ready") (.vstr "pong"))]
        else []) ++
       st.pendingQueue.map Ev.posted ++
       (if st.userOnReady then [Ev.userReadyCb] else [])) := by
  rcases hlook : lookupReg st (scopeMethod st.scope "__ready") with _ | hreg
  · have hu : chanUnbind st "__ready" = (false, st) := by
      simp [chanUnbind, hlook]
    cases hp : ty == "ping" <;>
      simp [onReadyMsg, hr, hp, hu, chanNotify, postMessage, flushQueue]
  · have hu := chanUnbind_eq st "__ready" hreg hlook
    cases hp : ty == "ping" <;>
      simp [onReadyMsg, hr, hp, hu, chanNotify, postMessage, flushQueue]

/-- Claim C4: a channel in the NotReady state receiving its first handshake
message becomes Ready whatever the payload is; a `ping` payload triggers a
`pong` notification reply (posted immediately) while a `pong` payload
triggers no reply; the reserved scoped `__ready` method is unbound, the
pending queue is flushed, and the user-supplied onReady callback is invoked
exactly once (receiving the channel object); a later handshake message
re-runs none of this — it at most replies `pong` to a stray `ping`. -/
theorem C4_handshake_ready :
    ∀ (st : ChanState) (ty : String), st.ready = false → st.userOnReady = true →
      (onReadyMsg st ty).1.ready = true ∧
      lookupReg (onReadyMsg st ty).1 (scopeMethod st.scope "__ready") = none ∧
      (onReadyMsg st ty).1.pendingQueue = [] ∧
      (onReadyMsg st ty).2 =
        (if ty == "ping"
         then [Ev.posted (.notif (scopeMethod st.scope "__ready") (.vstr "pong"))]
         else []) ++
        st.pendingQueue.map Ev.posted ++ [Ev.userReadyCb] ∧
      (onReadyMsg st ty).2.countP isUserReadyEv = 1 ∧
      onReadyMsg (onReadyMsg st ty).1 "pong" = ((onReadyMsg st ty).1, []) ∧
      onReadyMsg (onReadyMsg st ty).1 "ping" =
        ((onReadyMsg st ty).1,
         [Ev.posted (.notif (scopeMethod st.scope "__ready") (.vstr "pong"))]) := by
  intro st ty hr hu
  rw [onReadyMsg_not_ready st ty hr]
  refine ⟨rfl, ?_, rfl, ?_, ?_, ?_, ?_⟩
  · rcases hlook : lookupReg st (scopeMethod st.scope "__ready") with _ | hreg
    · have hub : chanUnbind st "__ready" = (false, st) := by
        simp [chanUnbind, hlook]
      rw [hub]
      exact hlook
    · rw [chanUnbind_eq st "__ready" hreg hlook]
      exact lookupReg_filter_self st (scopeMethod st.scope "__ready")
  · simp [hu]
  · simp only [hu]
    cases hp : ty == "ping" <;>
      simp [hp, List.countP_append, List.countP_cons, isUserReadyEv,
        List.countP_eq_zero]
  · simp [onReadyMsg]
  · have hsc := chanUnbind_scope st "__ready"
    simp [onReadyMsg, chanNotify, postMessage, hsc]

/-- Witness for C4: a NotReady channel with `__ready` bound, one queued
message and a configured onReady callback receives a `ping`. -/
theorem C4_handshake_ready_witness :
    ((({ scope := "", ready := false, regTbl := [("__ready", 0)], outTbl := [],
         inTbl := [], pendingQueue := [.notif "hello" (.vstr "x")],
         transIds := [], userOnReady := true } : ChanState)).ready = false) ∧
    (onReadyMsg
      { scope := "", ready := false, regTbl := [("__ready", 0)], outTbl := [],
        inTbl := [], pendingQueue := [.notif "hello" (.vstr "x")],
        transIds := [], userOnReady := true } "ping").2 =
      [Ev.posted (.notif "__ready" (.vstr "pong")),
       Ev.posted (.notif "hello" (.vstr "x")), Ev.userReadyCb] := by
  refine ⟨rfl, ?_⟩
  have h := (C4_handshake_ready
    { scope := "", ready := false, regTbl := [("__ready", 0)], outTbl := [],
      inTbl := [], pendingQueue := [.notif "hello" (.vstr "x")],
      transIds := [], userOnReady := true } "ping" rfl rfl).2.2.2.1
  simpa [scopeMethod] using h

/-- Claim C5 counterexample: the channel's own handshake `ping` is itself
sent through the unforced `postMessage` path, so it is queued like any
other pre-ready message.  If the application sends a notification right
after `build` returns — before the zero-delay timer that sends the `ping`
fires — the flush hands the application's message to the transport BEFORE
the channel's own `ping`: the transport observes
`[pong-reply, user message, own ping]`, so pre-ready messages are NOT
observed strictly after the handshake's own ping/pong messages. -/
theorem C5_counterexample :
    c5Transport =
      [.notif "__ready" (.vstr "pong"), .notif "hello" (.vstr "x"),
       .notif "__ready" (.vstr "ping")] ∧
    handshakeFirst c5Transport = false :=
  ⟨rfl, rfl⟩

/-- Claim C5 (amended): while NotReady every unforced outbound message
(calls, notifications, responses — and the channel's own handshake `ping`,
which takes the same path) is appended to the pending queue rather than
handed to the transport, and on readiness the queue is flushed to the
transport in strict FIFO (original send) order, strictly after the `pong`
reply when one is sent; the channel's own `ping` is simply one of the
queued messages and keeps its queue position. -/
theorem C5_pending_queue_fifo :
    (∀ (st : ChanState) (msg : WireMsg), st.ready = false →
      postMessage st msg false =
        ({ st with pendingQueue := st.pendingQueue ++ [msg] }, [.queued msg]))
    ∧ (∀ (st : ChanState) (ty : String), st.ready = false →
      transportOf (onReadyMsg st ty).2 =
        (if ty == "ping"
         then [WireMsg.notif (scopeMethod st.scope "__ready") (.vstr "pong")]
         else []) ++ st.pendingQueue) := by
  constructor
  · intro st msg hr
    simp [postMessage, hr]
  · intro st ty hr
    rw [onReadyMsg_not_ready st ty hr]
    cases hp : ty == "ping" <;>
      cases hu : st.userOnReady <;>
        simp [hp, hu, transportOf_append, transportOf_map_posted,
          transportOf_posted_singleton, transportOf_userReady, transportOf_nil,
          transportOf_cons_posted, transportOf_cons_userReady]

/-- Witness for C5: a queued notification on a NotReady channel, then the
flush on `ping`. -/
theorem C5_pending_queue_fifo_witness :
    c5St0.ready = false ∧
    postMessage c5St0 (.notif "hello" (.vstr "x")) false =
      ({ c5St0 with pendingQueue := [.notif "hello" (.vstr "x")] }, [.queued (.notif "hello" (.vstr "x"))]) ∧
    transportOf (onReadyMsg c5AfterPing.1 "ping").2 =
      [WireMsg.notif (scopeMethod c5AfterPing.1.scope "__ready") (.vstr "pong")] ++
        c5AfterPing.1.pendingQueue := by
  refine ⟨rfl, ?_, ?_⟩
  · exact C5_pending_queue_fifo.1 c5St0 (.notif "hello" (.vstr "x")) rfl
  · exact C5_pending_queue_fifo.2 c5AfterPing.1 "ping" rfl

/-! ### Claim C8 (inbound transaction: at most one terminal action,
auto-complete) -/

theorem terminalCount_nil (id : Nat) : terminalCount id [] = 0 := rfl

theorem terminalCount_append (id : Nat) (a b : List Ev) :
    terminalCount id (a ++ b) = terminalCount id a + terminalCount id b := by
  simp [terminalCount, List.countP_append]

theorem terminalCount_callbackInv (id i : Nat) (cb : String) (v : JsVal)
    (force : Bool) (st : ChanState) :
    terminalCount id (postMessage st (.callbackInv i cb v) force).2 = 0 := by
  by_cases h : !force && !st.ready <;>
    simp [postMessage, h, terminalCount, List.countP_cons, isTerminalEv]

theorem terminalCount_response (id : Nat) (v : JsVal) (force : Bool)
    (st : ChanState) :
    terminalCount id (postMessage st (.response id v) force).2 = 1 := by
  by_cases h : !force && !st.ready <;>
    simp [postMessage, h, terminalCount, List.countP_cons, isTerminalEv]

theorem terminalCount_errorResp (id : Nat) (k : String) (m : JsVal)
    (force : Bool) (st : ChanState) :
    terminalCount id (postMessage st (.errorResp id k m) force).2 = 1 := by
  by_cases h : !force && !st.ready <;>
    simp [postMessage, h, terminalCount, List.countP_cons, isTerminalEv]

/-- The per-operation accounting invariant: a transaction operation emits at
most `completed-after minus completed-before` terminal messages (so a
terminal message is emitted only on the false-to-true transition of the
`completed` flag, which is never reset). -/
theorem execAct_invariant (st : ChanState) (ts : TransSt) (id : Nat)
    (cbs : List String) (a : HAct) :
    terminalCount id (execAct st ts id cbs a).2.2.1 + ts.completed.toNat ≤
      (execAct st ts id cbs a).2.1.completed.toNat ∧
    (execAct st ts id cbs a).2.1.completed.toNat ≤ 1 := by
  rcases ts with ⟨tc, td⟩
  cases a with
  | invoke cb v =>
    cases tc
    · rcases hin : lookupIn st id with _ | l
      · simp [execAct, transInvoke, hin, terminalCount]
      · by_cases hcb : cb ∈ cbs
        · simp [execAct, transInvoke, hin, hcb, terminalCount_callbackInv]
        · simp [execAct, transInvoke, hin, hcb, terminalCount]
    · simp [execAct, transInvoke, terminalCount]
  | complete v =>
    cases tc
    · rcases hin : lookupIn st id with _ | l
      · simp [execAct, transComplete, hin, terminalCount]
      · simp [execAct, transComplete, hin, terminalCount_response]
    · simp [execAct, transComplete, terminalCount]
  | error k m =>
    cases tc
    · rcases hin : lookupIn st id with _ | l
      · simp [execAct, transError, hin, terminalCount]
      · simp [execAct, transError, hin, terminalCount_errorResp]
    · simp [execAct, transError, terminalCount]
  | delayReturn b =>
    simp [execAct, transDelayReturn, terminalCount]
    cases tc <;> simp

theorem runActs_invariant (id : Nat) (cbs : List String) :
    ∀ (acts : List HAct) (st : ChanState) (ts : TransSt),
      terminalCount id (runActs st ts id cbs acts).2.2.1 + ts.completed.toNat ≤
        (runActs st ts id cbs acts).2.1.completed.toNat ∧
      (runActs st ts id cbs acts).2.1.completed.toNat ≤ 1 := by
  intro acts
  induction acts with
  | nil =>
    intro st ts
    constructor
    · simp [runActs, terminalCount]
    · cases h : ts.completed <;> simp [runActs, h]
  | cons a rest ih =>
    intro st ts
    rcases hx : execAct st ts id cbs a with ⟨st1, ts1, e1, thr⟩
    have h1 := execAct_invariant st ts id cbs a
    rw [hx] at h1
    cases thr with
    | none =>
      rcases hr : runActs st1 ts1 id cbs rest with ⟨st2, ts2, e2, thr2⟩
      have h2 := ih st1 ts1
      rw [hr] at h2
      simp only [runActs, hx, hr]
      simp only [terminalCount_append]
      simp only at h1 h2
      omega
    | some e =>
      simp only [runActs, hx]
      simp only at h1
      omega

theorem handleRaise_count (st : ChanState) (ts : TransSt) (id : Nat)
    (e : JsVal) (acc : List Ev) :
    terminalCount id (handleRaise st ts id e acc).2.1 ≤
      terminalCount id acc + (1 - ts.completed.toNat) := by
  rcases hn : normalizeRaised e with t | ⟨k, msg⟩
  · simp [handleRaise, hn]
  · cases hc : ts.completed
    · have h := execAct_invariant st ts id [] (.error k msg)
      simp only [execAct] at h
      rcases hx : transError st ts id k msg with ⟨st', ts', e2, thr⟩
      rw [hx] at h
      simp [handleRaise, hn, hc, hx, terminalCount_append]
      simp [hc] at h
      omega
    · simp [handleRaise, hn, hc]

theorem transInvoke_no_throw (st : ChanState) (id : Nat) (cbs : List String)
    (cb : String) (v : JsVal) (hcb : cb ∈ cbs) :
    (transInvoke st ⟨false, false⟩ id cbs cb v).2.1 = ⟨false, false⟩ ∧
    (transInvoke st ⟨false, false⟩ id cbs cb v).2.2.2 = none ∧
    terminalCount id (transInvoke st ⟨false, false⟩ id cbs cb v).2.2.1 = 0 ∧
    (transInvoke st ⟨false, false⟩ id cbs cb v).1.inTbl = st.inTbl ∧
    (transInvoke st ⟨false, false⟩ id cbs cb v).1.ready = st.ready := by
  rcases hin : lookupIn st id with _ | l
  · simp [transInvoke, hin, terminalCount]
  · cases hready : st.ready <;>
      simp [transInvoke, hin, hcb, postMessage, hready, terminalCount,
        List.countP_cons, isTerminalEv]

/-- A benign handler script never completes, never throws, emits no
terminal message, and leaves the inbound table, the readiness flag, and the
transaction flags unchanged. -/
theorem runActs_benign (id : Nat) (cbs : List String) :
    ∀ (acts : List HAct) (st : ChanState), benignActs cbs acts = true →
      (runActs st ⟨false, false⟩ id cbs acts).2.1 = ⟨false, false⟩ ∧
      (runActs st ⟨false, false⟩ id cbs acts).2.2.2 = none ∧
      terminalCount id (runActs st ⟨false, false⟩ id cbs acts).2.2.1 = 0 ∧
      (runActs st ⟨false, false⟩ id cbs acts).1.inTbl = st.inTbl ∧
      (runActs st ⟨false, false⟩ id cbs acts).1.ready = st.ready := by
  intro acts
  induction acts with
  | nil => exact fun st _ => ⟨rfl, rfl, rfl, rfl, rfl⟩
  | cons a rest ih =>
    intro st hb
    have hrest : benignActs cbs rest = true := by
      cases a with
      | invoke cb v => simp [benignActs] at hb; exact hb.2
      | delayReturn b => simp [benignActs] at hb; exact hb.2
      | complete v => simp [benignActs] at hb
      | error k m => simp [benignActs] at hb
    have step : (execAct st ⟨false, false⟩ id cbs a).2.1 = ⟨false, false⟩ ∧
        (execAct st ⟨false, false⟩ id cbs a).2.2.2 = none ∧
        terminalCount id (execAct st ⟨false, false⟩ id cbs a).2.2.1 = 0 ∧
        (execAct st ⟨false, false⟩ id cbs a).1.inTbl = st.inTbl ∧
        (execAct st ⟨false, false⟩ id cbs a).1.ready = st.ready := by
      cases a with
      | invoke cb v =>
        have hcb : cb ∈ cbs := by
          simp [benignActs] at hb; exact hb.1
        exact transInvoke_no_throw st id cbs cb v hcb
      | delayReturn b =>
        have hbf : b = false := by
          simp [benignActs] at hb; exact hb.1
        subst hbf
        exact ⟨rfl, rfl, rfl, rfl, rfl⟩
      | complete v => simp [benignActs] at hb
      | error k m => simp [benignActs] at hb
    rcases hx : execAct st ⟨false, false⟩ id cbs a with ⟨st1, ts1, e1, thr⟩
    rw [hx] at step
    obtain ⟨hts1, hthr1, hcnt1, hin1, hready1⟩ := step
    simp only at hts1 hthr1 hcnt1 hin1 hready1
    subst hts1
    subst hthr1
    rcases hr : runActs st1 ⟨false, false⟩ id cbs rest with ⟨st2, ts2, e2, thr2⟩
    have ihh := ih st1 hrest
    rw [hr] at ihh
    obtain ⟨a1, a2, a3, a4, a5⟩ := ihh
    simp only at a1 a2 a3 a4 a5
    simp only [runActs, hx, hr]
    refine ⟨a1, a2, ?_, ?_, ?_⟩
    · rw [terminalCount_append]; omega
    · rw [a4, hin1]
    · rw [a5, hready1]

/-- Claim C8: at most one terminal Response (success or error) is ever
emitted for one Inbound Transaction, whatever the handler does — a second
complete, error, or invoke after completion is a no-op; and when the
handler returns normally without completing, erroring, or delay-flagging,
the engine auto-completes with the return value, emitting exactly one
success Response (after the handler's callback traffic). -/
theorem C8_inbound_terminal_once :
    (∀ (st : ChanState) (id : Nat) (method : String) (cbs : List String)
       (acts : List HAct) (outcome : Except JsVal JsVal),
       terminalCount id (onMessageRequest st id method cbs acts outcome).2.1 ≤ 1)
    ∧ (∀ (st : ChanState) (ts : TransSt) (id : Nat) (cbs : List String)
         (cb : String) (v : JsVal), ts.completed = true →
         transInvoke st ts id cbs cb v = (st, ts, [], none))
    ∧ (∀ (st : ChanState) (ts : TransSt) (id : Nat) (v : JsVal),
         ts.completed = true → transComplete st ts id v = (st, ts, [], none))
    ∧ (∀ (st : ChanState) (ts : TransSt) (id : Nat) (k : String) (m : JsVal),
         ts.completed = true → transError st ts id k m = (st, ts, [], none))
    ∧ (∀ (st : ChanState) (id : Nat) (method : String) (cbs : List String)
         (acts : List HAct) (ret : JsVal) (hh : Nat),
         lookupReg st method = some hh → benignActs cbs acts = true →
         ∃ pre,
           (onMessageRequest st id method cbs acts (.ok ret)).2.1 =
             pre ++ [if st.ready then Ev.posted (.response id ret)
                     else Ev.queued (.response id ret)] ∧
           terminalCount id pre = 0) := by
  refine ⟨?_, ?_, ?_, ?_, ?_⟩
  · intro st id method cbs acts outcome
    rcases hreg : lookupReg st method with _ | hh
    · simp [onMessageRequest, hreg, terminalCount]
    · rcases hr : runActs { st with inTbl := (id, cbs) :: st.inTbl }
        ⟨false, false⟩ id cbs acts with ⟨st2, ts1, e1, thr⟩
      have hinv := runActs_invariant id cbs acts
        { st with inTbl := (id, cbs) :: st.inTbl } ⟨false, false⟩
      rw [hr] at hinv
      simp only at hinv
      cases thr with
      | some e =>
        have hc := handleRaise_count st2 ts1 id e e1
        simp only [onMessageRequest, hreg, hr]
        omega
      | none =>
        cases outcome with
        | error e =>
          have hc := handleRaise_count st2 ts1 id e e1
          simp only [onMessageRequest, hreg, hr]
          omega
        | ok ret =>
          by_cases hd : (!ts1.delay && !ts1.completed) = true
          · rcases hx : transComplete st2 ts1 id ret with ⟨st3, ts3, e2, thr3⟩
            have h := execAct_invariant st2 ts1 id cbs (.complete ret)
            simp only [execAct, hx] at h
            simp only [onMessageRequest, hreg, hr, hd, if_true, hx,
              terminalCount_append]
            simp only [Bool.toNat_false, Bool.toNat_true] at h hinv
            omega
          · simp only [onMessageRequest, hreg, hr, if_neg hd]
            simp only [Bool.toNat_false, Bool.toNat_true] at hinv
            omega
  · intro st ts id cbs cb v h
    simp [transInvoke, h]
  · intro st ts id v h
    simp [transComplete, h]
  · intro st ts id k m h
    simp [transError, h]
  · intro st id method cbs acts ret hh hreg hbenign
    rcases hr : runActs { st with inTbl := (id, cbs) :: st.inTbl }
      ⟨false, false⟩ id cbs acts with ⟨st2, ts1, e1, thr⟩
    have hben := runActs_benign id cbs acts { st with inTbl := (id, cbs) :: st.inTbl } hbenign
    rw [hr] at hben
    simp only at hben
    obtain ⟨hts, hthr, hcnt, hin, hready⟩ := hben
    subst hts
    subst hthr
    refine ⟨e1, ?_, hcnt⟩
    have hlookin : lookupIn st2 id = some cbs := by
      simp only [lookupIn, hin]
      simp [List.find?_cons]
    simp only [onMessageRequest, hreg, hr]
    rw [← hready]
    cases hst2 : st2.ready <;>
      simp [transComplete, hlookin, postMessage, hst2]

/-- Witness for C8: a ready channel with method "f" bound; the handler
invokes a declared callback once and returns 5; exactly one success
Response is posted after the callback traffic.  Also exercises the
completed-transaction no-op at a concrete transaction state. -/
theorem C8_inbound_terminal_once_witness :
    lookupReg
      { scope := "", ready := true, regTbl := [("f", 3)], outTbl := [],
        inTbl := [], pendingQueue := [], transIds := [], userOnReady := false }
      "f" = some 3 ∧
    benignActs ["cb"] [HAct.invoke "cb" (.vstr "p")] = true ∧
    (∃ pre,
      (onMessageRequest
        { scope := "", ready := true, regTbl := [("f", 3)], outTbl := [],
          inTbl := [], pendingQueue := [], transIds := [], userOnReady := false }
        4 "f" ["cb"] [HAct.invoke "cb" (.vstr "p")] (.ok (.vstr "5"))).2.1 =
        pre ++ [if ({ scope := "", ready := true, regTbl := [("f", 3)], outTbl := [],
                      inTbl := [], pendingQueue := [], transIds := [],
                      userOnReady := false } : ChanState).ready
                then Ev.posted (.response 4 (.vstr "5"))
                else Ev.queued (.response 4 (.vstr "5"))] ∧
        terminalCount 4 pre = 0) ∧
    transComplete
      { scope := "", ready := true, regTbl := [("f", 3)], outTbl := [],
        inTbl := [], pendingQueue := [], transIds := [], userOnReady := false }
      ⟨true, false⟩ 4 (.vstr "x") =
      ({ scope := "", ready := true, regTbl := [("f", 3)], outTbl := [],
         inTbl := [], pendingQueue := [], transIds := [], userOnReady := false },
       ⟨true, false⟩, [], none) := by
  refine ⟨rfl, rfl, ?_, ?_⟩
  · exact C8_inbound_terminal_once.2.2.2.2
      { scope := "", ready := true, regTbl := [("f", 3)], outTbl := [],
        inTbl := [], pendingQueue := [], transIds := [], userOnReady := false }
      4 "f" ["cb"] [HAct.invoke "cb" (.vstr "p")] (.vstr "5") 3 rfl rfl
  · exact C8_inbound_terminal_once.2.2.1
      { scope := "", ready := true, regTbl := [("f", 3)], outTbl := [],
        inTbl := [], pendingQueue := [], transIds := [], userOnReady := false }
      ⟨true, false⟩ 4 (.vstr "x") rfl

/-! ### Claim C6 (callback marshaller) -/

theorem cloneFold_nil (g : HVal → Except CErr (Option PVal)) :
    cloneFold g [] = .ok [] := rfl

theorem cloneFold_cons (g : HVal → Except CErr (Option PVal))
    (a : String × HVal) (t : List (String × HVal)) :
    cloneFold g (a :: t) =
      match g a.2 with
      | .error e => .error e
      | .ok ov =>
        match cloneFold g t with
        | .error e => .error e
        | .ok fs => .ok (match ov with | some pv => (a.1, pv) :: fs | none => fs) := rfl

theorem cloneFold_ok_members (g : HVal → Except CErr (Option PVal)) :
    ∀ (l : List (String × HVal)) (out : List (String × PVal)),
      cloneFold g l = .ok out → ∀ kv ∈ l, ∃ ov, g kv.2 = .ok ov := by
  intro l
  induction l with
  | nil => intro out _ kv hkv; cases hkv
  | cons a t ih =>
    intro out h kv hkv
    rw [cloneFold_cons] at h
    rcases hg : g a.2 with e | ov
    · rw [hg] at h; cases h
    · rw [hg] at h
      rcases ht : cloneFold g t with e | fs
      · rw [ht] at h; cases h
      · rcases List.mem_cons.mp hkv with heq | hmem
        · exact ⟨ov, heq ▸ hg⟩
        · exact ih fs ht kv hmem

theorem cloneFold_noFun (g : HVal → Except CErr (Option PVal)) :
    ∀ (l : List (String × HVal)) (out : List (String × PVal)),
      cloneFold g l = .ok out →
      (∀ kv ∈ l, ∀ pv, g kv.2 = .ok (some pv) → noFun pv = true) →
      noFun.noFunFields out = true := by
  intro l
  induction l with
  | nil =>
    intro out h _
    rw [cloneFold_nil] at h
    cases h
    rfl
  | cons a t ih =>
    intro out h hg
    rw [cloneFold_cons] at h
    rcases hga : g a.2 with e | ov
    · rw [hga] at h; cases h
    · rw [hga] at h
      rcases ht : cloneFold g t with e | fs
      · rw [ht] at h; cases h
      · rw [ht] at h
        have hfs := ih fs ht fun kv hkv => hg kv (List.mem_cons_of_mem a hkv)
        cases ov with
        | none => cases h; exact hfs
        | some pv =>
          cases h
          have hpv := hg a (List.mem_cons_self a t) pv hga
          simp [noFun.noFunFields, hpv, hfs]

/-- The deep value-clone never produces a function value: `JSON.stringify`
drops them. -/
theorem cloneV_noFun :
    ∀ (fuel : Nat) (heap : HeapT) (seen : List Nat) (v : HVal) (pv : PVal),
      cloneV fuel heap seen v = .ok (some pv) → noFun pv = true := by
  intro fuel
  induction fuel with
  | zero => intro heap seen v pv h; simp [cloneV] at h
  | succ f ih =>
    intro heap seen v pv h
    cases v with
    | hnull => simp [cloneV] at h; simp [← h, noFun]
    | hprim s => simp [cloneV] at h; simp [← h, noFun]
    | hfun fid => simp [cloneV] at h
    | href r =>
      simp only [cloneV] at h
      by_cases hs : r ∈ seen
      · simp [hs] at h
      · rw [if_neg hs] at h
        rcases hl : lookupH heap r with _ | fields
        · rw [hl] at h; cases h
        · simp only [hl] at h
          rcases hcf : cloneFold (fun w => cloneV f heap (r :: seen) w) fields
            with e | fs
          · rw [hcf] at h; cases h
          · rw [hcf] at h
            cases h
            have hfields := cloneFold_noFun _ fields fs hcf
              fun kv _ pv' hpv' => ih heap (r :: seen) kv.2 pv' hpv'
            simpa [noFun] using hfields

/-- If the clone completes, every descending ref chain from the root is
shorter than the fuel (each unfolding consumes one unit). -/
theorem cloneV_chain_bound :
    ∀ (fuel : Nat) (heap : HeapT) (seen : List Nat) (r : Nat)
      (ov : Option PVal),
      cloneV fuel heap seen (.href r) = .ok ov →
      ∀ n, ChainR heap r n → n < fuel := by
  intro fuel
  induction fuel with
  | zero => intro heap seen r ov h; simp [cloneV] at h
  | succ f ih =>
    intro heap seen r ov h n hc
    simp only [cloneV] at h
    by_cases hs : r ∈ seen
    · simp [hs] at h
    · rw [if_neg hs] at h
      rcases hl : lookupH heap r with _ | fields
      · rw [hl] at h; cases h
      · simp only [hl] at h
        rcases hcf : cloneFold (fun w => cloneV f heap (r :: seen) w) fields
          with e | fs
        · rw [hcf] at h; cases h
        · cases hc with
          | zero => omega
          | succ hstep hchain =>
            rcases hstep with ⟨fields', k, hl', hmem⟩
            rw [hl] at hl'
            injection hl' with hf
            subst hf
            rcases cloneFold_ok_members _ fields fs hcf _ hmem with ⟨ov', hov'⟩
            have := ih heap (r :: seen) _ ov' hov' _ hchain
            omega

theorem chainR_mono (heap : HeapT) :
    ∀ (m : Nat) (r : Nat), ChainR heap r m → ∀ n, n ≤ m → ChainR heap r n := by
  intro m
  induction m with
  | zero =>
    intro r h n hn
    have : n = 0 := by omega
    subst this
    exact .zero r
  | succ k ih =>
    intro r h n hn
    cases h with
    | succ h1 h2 =>
      cases n with
      | zero => exact .zero r
      | succ n' => exact .succ h1 (ih _ h2 n' (by omega))

theorem reach_chain (heap : HeapT) {a b : Nat} (h : Reach heap a b) :
    ∀ n, ChainR heap b n → ∃ m, n ≤ m ∧ ChainR heap a m := by
  induction h with
  | refl => exact fun n hc => ⟨n, Nat.le_refl n, hc⟩
  | tail hab hbc ih =>
    intro n hc
    rcases ih (n + 1) (.succ hbc hc) with ⟨m, hm, hcm⟩
    exact ⟨m, by omega, hcm⟩

/-- A node on a reachable cycle admits chains of every length. -/
theorem cycle_chain (heap : HeapT) {rc rd : Nat} (hstep : stepsTo heap rc rd)
    (hback : Reach heap rd rc) : ∀ n, ChainR heap rc n := by
  intro n
  induction n with
  | zero => exact .zero rc
  | succ k ihk =>
    rcases reach_chain heap hback k ihk with ⟨m, hm, hcm⟩
    exact chainR_mono heap (m + 1) rc (.succ hstep hcm) (k + 1) (by omega)

/-- Claim C6 counterexample: on a cyclic params tree (node 0 referring to
itself) the call fails, but with the circular-structure error thrown by the
serialization clone (`JSON.stringify`, run first at line 633), NOT with the
recursive-structure error of `pruneFunctions` — the walk and its cycle
guard are never reached. -/
theorem C6_counterexample :
    marshalParams 5 c6CycleHeap (some (.href 0)) = .error (.cloneFail .circular) ∧
    marshalParams 5 c6CycleHeap (some (.href 0)) ≠ .error (.pruneFail .recursive) := by
  refine ⟨rfl, ?_⟩
  intro h
  rw [show marshalParams 5 c6CycleHeap (some (.href 0)) =
    .error (.cloneFail .circular) from rfl] at h
  injection h with h2
  exact CallFail.noConfusion h2

theorem str_length_ne_zero {s : String} (h : s ≠ "") : s.length ≠ 0 := by
  intro hl
  apply h
  apply String.ext
  have hd : s.data.length = 0 := hl
  simpa using List.length_eq_zero.mp hd

theorem joinOne_empty (k : String) : joinOne "" k = k := by
  simp [joinOne, String.empty_append]

theorem joinSegs_cons (p k : String) (segs : List String) :
    joinSegs p (k :: segs) = joinSegs (joinOne p k) segs := rfl

theorem joinSegs_of_ne (segs : List String) :
    ∀ (p : String), p.length ≠ 0 →
      joinSegs p segs = if segs.isEmpty then p else p ++ "/" ++ slashJoin segs := by
  induction segs with
  | nil => intro p _; rfl
  | cons k rest ih =>
    intro p hp
    rw [joinSegs_cons]
    have hj : joinOne p k = p ++ "/" ++ k := by simp [joinOne, hp]
    have hlen : (joinOne p k).length ≠ 0 := by
      rw [hj]
      simp [String.length_append]
      omega
    rw [ih (joinOne p k) hlen, hj]
    cases rest with
    | nil => simp [slashJoin]
    | cons r rs => simp [slashJoin, String.append_assoc]

/-- The incremental joining of `pruneFunctions` starting from the empty root
path equals the spec's slash-join, as long as the first key segment is
nonempty. -/
theorem joinSegs_empty_eq_slashJoin (k : String) (hk : k ≠ "")
    (segs : List String) : joinSegs "" (k :: segs) = slashJoin (k :: segs) := by
  rw [joinSegs_cons, joinOne_empty]
  rw [joinSegs_of_ne segs k (str_length_ne_zero hk)]
  cases segs with
  | nil => rfl
  | cons r rs => simp [slashJoin]

theorem pruneFold_cons_null (gP : String → HVal → Except PErr (List (String × Nat)))
    (path k : String) (t : List (String × HVal)) :
    pruneFold gP path ((k, .hnull) :: t) = pruneFold gP path t := rfl

theorem pruneFold_cons_prim (gP : String → HVal → Except PErr (List (String × Nat)))
    (path k s : String) (t : List (String × HVal)) :
    pruneFold gP path ((k, .hprim s) :: t) = pruneFold gP path t := rfl

theorem pruneFold_cons_fun (gP : String → HVal → Except PErr (List (String × Nat)))
    (path k : String) (fid : Nat) (t : List (String × HVal)) :
    pruneFold gP path ((k, .hfun fid) :: t) =
      match pruneFold gP path t with
      | .error e => .error e
      | .ok rest => .ok ((joinOne path k, fid) :: rest) := rfl

theorem pruneFold_cons_ref (gP : String → HVal → Except PErr (List (String × Nat)))
    (path k : String) (r : Nat) (t : List (String × HVal)) :
    pruneFold gP path ((k, .href r) :: t) =
      match gP (joinOne path k) (.href r) with
      | .error e => .error e
      | .ok here =>
        match pruneFold gP path t with
        | .error e => .error e
        | .ok rest => .ok (here ++ rest) := rfl

theorem leavesFold_cons_null (gL : HVal → Except PErr (List (List String × Nat)))
    (k : String) (t : List (String × HVal)) :
    leavesFold gL ((k, .hnull) :: t) = leavesFold gL t := rfl

theorem leavesFold_cons_prim (gL : HVal → Except PErr (List (List String × Nat)))
    (k s : String) (t : List (String × HVal)) :
    leavesFold gL ((k, .hprim s) :: t) = leavesFold gL t := rfl

theorem leavesFold_cons_fun (gL : HVal → Except PErr (List (List String × Nat)))
    (k : String) (fid : Nat) (t : List (String × HVal)) :
    leavesFold gL ((k, .hfun fid) :: t) =
      match leavesFold gL t with
      | .error e => .error e
      | .ok rest => .ok (([k], fid) :: rest) := rfl

theorem leavesFold_cons_ref (gL : HVal → Except PErr (List (List String × Nat)))
    (k : String) (r : Nat) (t : List (String × HVal)) :
    leavesFold gL ((k, .href r) :: t) =
      match gL (.href r) with
      | .error e => .error e
      | .ok here =>
        match leavesFold gL t with
        | .error e => .error e
        | .ok rest => .ok (here.map (fun q => (k :: q.1, q.2)) ++ rest) := rfl

/-- One fields pass of `pruneFunctions` computes the joined-path image of
the spec-side leaves pass. -/
theorem pruneFold_leavesFold
    (gP : String → HVal → Except PErr (List (String × Nat)))
    (gL : HVal → Except PErr (List (List String × Nat)))
    (hg : ∀ np w, gP np w =
      (gL w).map (List.map fun q => (joinSegs np q.1, q.2))) :
    ∀ (l : List (String × HVal)) (path : String),
      pruneFold gP path l =
        (leavesFold gL l).map (List.map fun q => (joinSegs path q.1, q.2)) := by
  intro l
  induction l with
  | nil => intro path; rfl
  | cons a t ih =>
    intro path
    rcases a with ⟨k, v⟩
    cases v with
    | hnull =>
      rw [pruneFold_cons_null, leavesFold_cons_null]
      exact ih path
    | hprim s =>
      rw [pruneFold_cons_prim, leavesFold_cons_prim]
      exact ih path
    | hfun fid =>
      rw [pruneFold_cons_fun, leavesFold_cons_fun, ih path]
      rcases hL : leavesFold gL t with e | rest <;> simp [Except.map]
      rfl
    | href r' =>
      rw [pruneFold_cons_ref, leavesFold_cons_ref, ih path,
        hg (joinOne path k) (.href r')]
      rcases hgl : gL (.href r') with e | here <;>
        rcases hL : leavesFold gL t with e2 | rest <;>
          simp [Except.map, List.map_append, List.map_map]
      exact fun a b _ => (joinSegs_cons path k a).symm

/-- `pruneFunctions` records exactly the function-valued leaves of the
spec-side walk, each under its incrementally joined path. -/
theorem pruneF_eq_specLeaves :
    ∀ (fuel : Nat) (heap : HeapT) (seen : List Nat) (path : String) (v : HVal),
      pruneF fuel heap seen path v =
        (specLeaves fuel heap seen v).map
          (List.map fun q => (joinSegs path q.1, q.2)) := by
  intro fuel
  induction fuel with
  | zero => intro heap seen path v; rfl
  | succ f ih =>
    intro heap seen path v
    cases v with
    | hnull => rfl
    | hprim s => rfl
    | hfun fid => rfl
    | href r =>
      simp only [pruneF, specLeaves]
      by_cases hs : r ∈ seen
      · rw [if_pos hs, if_pos hs]; rfl
      · rw [if_neg hs, if_neg hs]
        rcases hl : lookupH heap r with _ | fields <;> simp only [hl]
        · rfl
        · exact pruneFold_leavesFold _ _
            (fun np w => ih heap (r :: seen) np w) fields path

/-- Every path the leaves pass produces starts with a key of the processed
field list. -/
theorem leavesFold_heads (gL : HVal → Except PErr (List (List String × Nat))) :
    ∀ (l : List (String × HVal)) (out : List (List String × Nat)),
      leavesFold gL l = .ok out →
      (∀ kv ∈ l, (kv.1 : String) ≠ "") →
      ∀ q ∈ out, ∃ k segs, q.1 = k :: segs ∧ k ≠ "" := by
  intro l
  induction l with
  | nil =>
    intro out h _ q hq
    cases h
    cases hq
  | cons a t ih =>
    intro out h hkeys q hq
    rcases a with ⟨k, v⟩
    have hkt : ∀ kv ∈ t, (kv.1 : String) ≠ "" :=
      fun kv hkv => hkeys kv (List.mem_cons_of_mem _ hkv)
    have hk : k ≠ "" := hkeys (k, v) (List.mem_cons_self _ _)
    cases v with
    | hnull => exact ih out (by rw [leavesFold_cons_null] at h; exact h) hkt q hq
    | hprim s => exact ih out (by rw [leavesFold_cons_prim] at h; exact h) hkt q hq
    | hfun fid =>
      rw [leavesFold_cons_fun] at h
      rcases hL : leavesFold gL t with e | rest
      · rw [hL] at h; cases h
      · rw [hL] at h
        cases h
        rcases List.mem_cons.mp hq with heq | hmem
        · exact ⟨k, [], by rw [heq], hk⟩
        · exact ih rest hL hkt q hmem
    | href r' =>
      rw [leavesFold_cons_ref] at h
      rcases hgl : gL (.href r') with e | here
      · rw [hgl] at h; cases h
      · rw [hgl] at h
        rcases hL : leavesFold gL t with e2 | rest
        · rw [hL] at h; cases h
        · rw [hL] at h
          cases h
          rcases List.mem_append.mp hq with hmem | hmem
          · rcases List.mem_map.mp hmem with ⟨q', _, hq'⟩
            exact ⟨k, q'.1, by rw [← hq'], hk⟩
          · exact ih rest hL hkt q hmem

theorem specLeaves_heads (heap : HeapT) (hkeys : goodKeys heap = true) :
    ∀ (fuel : Nat) (seen : List Nat) (v : HVal) (ls : List (List String × Nat)),
      specLeaves fuel heap seen v = .ok ls →
      ∀ q ∈ ls, ∃ k segs, q.1 = k :: segs ∧ k ≠ "" := by
  intro fuel seen v ls h q hq
  cases fuel with
  | zero => simp [specLeaves] at h
  | succ f =>
    cases v with
    | hnull => cases h; cases hq
    | hprim s => cases h; cases hq
    | hfun fid => cases h; cases hq
    | href r =>
      simp only [specLeaves] at h
      by_cases hs : r ∈ seen
      · rw [if_pos hs] at h; cases h
      · rw [if_neg hs] at h
        rcases hl : lookupH heap r with _ | fields
        · rw [hl] at h; cases h
        · simp only [hl] at h
          have hmem : (∃ pr ∈ heap, pr.2 = fields) := by
            rcases Option.map_eq_some'.mp hl with ⟨pr, hfind, hpr⟩
            exact ⟨pr, List.mem_of_find?_eq_some hfind, hpr⟩
          rcases hmem with ⟨pr, hpr_mem, hpr_eq⟩
          have hfk : ∀ kv ∈ fields, (kv.1 : String) ≠ "" := by
            intro kv hkv
            have h1 := List.all_eq_true.mp hkeys pr hpr_mem
            have h2 := List.all_eq_true.mp h1 kv (hpr_eq ▸ hkv)
            simpa using h2
          exact leavesFold_heads _ fields ls h hfk q hq

/-- Claim C6 (amended): for every call whose (truthy) params tree lets the
marshalling phase complete, the outbound marshaller records exactly the
function-valued leaves of the tree, in traversal order, each under the
slash-join of its key segments from the root (with the heap's keys
nonempty), while the serialized wire payload produced by the deep
value-clone contains no function values (the walk itself leaves the
caller's params untouched — the source's `delete` of function members is
commented out, line 620); and for every call whose params tree reaches a
ref cycle, the call fails — but (per the counterexample) with the clone
step's circular-structure error rather than the walk's recursive-structure
error, since the clone runs first. -/
theorem C6_marshaller :
    (∀ (fuel : Nat) (heap : HeapT) (p : HVal) (c : Option PVal)
       (cbs : List (String × Nat)),
       goodKeys heap = true → hTruthy p = true →
       marshalParams fuel heap (some p) = .ok (c, cbs) →
       (∀ pv, c = some pv → noFun pv = true) ∧
       ∃ ls, specLeaves fuel heap [] p = .ok ls ∧
         cbs = ls.map (fun q => (slashJoin q.1, q.2)))
    ∧ (∀ (fuel : Nat) (heap : HeapT) (r0 rc rd : Nat),
        Reach heap r0 rc → stepsTo heap rc rd → Reach heap rd rc →
        ∀ res, marshalParams fuel heap (some (.href r0)) ≠ .ok res) := by
  constructor
  · intro fuel heap p c cbs hkeys htruthy hm
    simp only [marshalParams, htruthy, if_true] at hm
    rcases hcl : cloneV fuel heap [] p with e | c'
    · rw [hcl] at hm; cases hm
    · rw [hcl] at hm
      rcases hpr : pruneF fuel heap [] "" p with e | cbs'
      · rw [hpr] at hm; cases hm
      · rw [hpr] at hm
        injection hm with hm2
        injection hm2 with hc hcbs
        constructor
        · intro pv hpv
          exact cloneV_noFun fuel heap [] p pv (by rw [hcl, hc, hpv])
        · have hcorr := pruneF_eq_specLeaves fuel heap [] "" p
          rw [hpr] at hcorr
          rcases hsl : specLeaves fuel heap [] p with e | ls
          · rw [hsl] at hcorr; cases hcorr
          · rw [hsl] at hcorr
            refine ⟨ls, rfl, ?_⟩
            have hcbs' : cbs' = ls.map (fun q => (joinSegs "" q.1, q.2)) := by
              injection hcorr
            rw [← hcbs, hcbs']
            apply List.map_congr_left
            intro q hq
            rcases specLeaves_heads heap hkeys fuel [] p ls hsl q hq
              with ⟨k, segs, hq1, hk⟩
            rw [hq1, joinSegs_empty_eq_slashJoin k hk segs]
  · intro fuel heap r0 rc rd h0 hstep hback res h
    simp only [marshalParams, hTruthy, if_true] at h
    rcases hcl : cloneV fuel heap [] (.href r0) with e | c
    · rw [hcl] at h; cases h
    · have hb := cloneV_chain_bound fuel heap [] r0 c hcl
      have hcycle := cycle_chain heap hstep hback fuel
      rcases reach_chain heap h0 fuel hcycle with ⟨m, hm, hcm⟩
      have hchain : ChainR heap r0 fuel := chainR_mono heap m r0 hcm fuel hm
      have := hb fuel hchain
      omega

/-- Witness for C6: the acyclic heap `c6GoodHeap` marshals to a
function-free payload with callback list `[("a/g", 8), ("f", 7)]`, and the
cyclic heap `c6CycleHeap` never marshals successfully. -/
theorem C6_marshaller_witness :
    goodKeys c6GoodHeap = true ∧ hTruthy (.href 0) = true ∧
    marshalParams 5 c6GoodHeap (some (.href 0)) =
      .ok (some (.pobj [("a", .pobj [("x", .pprim "v")])]),
           [("a/g", 8), ("f", 7)]) ∧
    ((∀ pv, (some (PVal.pobj [("a", .pobj [("x", .pprim "v")])]) : Option PVal) =
        some pv → noFun pv = true) ∧
      ∃ ls, specLeaves 5 c6GoodHeap [] (.href 0) = .ok ls ∧
        ([("a/g", 8), ("f", 7)] : List (String × Nat)) =
          ls.map (fun q => (slashJoin q.1, q.2))) ∧
    marshalParams 5 c6CycleHeap (some (.href 0)) ≠ .ok (none, []) := by
  refine ⟨rfl, rfl, rfl, ?_, ?_⟩
  · exact C6_marshaller.1 5 c6GoodHeap (.href 0)
      (some (.pobj [("a", .pobj [("x", .pprim "v")])])) [("a/g", 8), ("f", 7)]
      rfl rfl rfl
  · exact C6_marshaller.2 5 c6CycleHeap 0 0 0 (.refl 0)
      ⟨[("a", .href 0)], "a", rfl, by simp⟩ (.refl 0) (none, [])

end Jschannel
